import Mathlib

/-!
Verification of the signal-metrics / feature-evaluation core of the
`toyoko` voice-feedback application (`run_app.py`, `src/speech_analyzer.py`).

Numbers are modelled exactly: finite IEEE values are embedded as rationals
(`ℚ`), and the special values NaN/±Inf — which several code paths can
produce or receive — are modelled by the four-constructor type `FV`.
Arithmetic on finite values is exact rational arithmetic (the idealization
of float32/float64 that ignores rounding; every property checked here is a
threshold/branching fact that rounding does not affect).  `np.sqrt` and
`np.log10` produce irrational reals, so quantities passing through them
(`rms`, `dbfs`) are carried as their rational pre-images (`rmsSq`, the
squared argument of the logarithm): `sqrt` and `log10` are strictly
monotone on the positive reals, so all sign/zero/finiteness facts transfer
exactly.
-/

namespace Toyoko


/-- A floating-point value: a finite rational, +inf, -inf, or NaN.
Mirrors the value domain of the numpy float32/float64 arrays in
`run_app.py`. -/
inductive FV where
  | fin : ℚ → FV
  | pinf : FV
  | ninf : FV
  | nan : FV
deriving DecidableEq, Repr

/-- Whether a float value is finite (neither NaN nor ±Inf). -/
def FV.isFinite : FV → Bool
  | .fin _ => true
  | _ => false

/-- `np.abs` on a float value: `|NaN| = NaN`, `|±Inf| = +Inf`. -/
def fvAbs : FV → FV
  | .fin q => .fin |q|
  | .pinf => .pinf
  | .ninf => .pinf
  | .nan => .nan

/-- IEEE `<` on float values: any comparison involving NaN is false. -/
def fvLt : FV → FV → Bool
  | .fin a, .fin b => decide (a < b)
  | .fin _, .pinf => true
  | .ninf, .fin _ => true
  | .ninf, .pinf => true
  | _, _ => false

/-- IEEE `>` on float values. -/
def fvGt (a b : FV) : Bool := fvLt b a

/-- IEEE `≤` on float values: false whenever NaN is involved. -/
def fvLe : FV → FV → Bool
  | .fin a, .fin b => decide (a ≤ b)
  | .fin _, .pinf => true
  | .ninf, .fin _ => true
  | .ninf, .pinf => true
  | .ninf, .ninf => true
  | .pinf, .pinf => true
  | _, _ => false

/-- IEEE addition. -/
def fvAdd : FV → FV → FV
  | .fin a, .fin b => .fin (a + b)
  | .fin _, .pinf => .pinf
  | .pinf, .fin _ => .pinf
  | .fin _, .ninf => .ninf
  | .ninf, .fin _ => .ninf
  | .pinf, .pinf => .pinf
  | .ninf, .ninf => .ninf
  | _, _ => .nan

/-- IEEE multiplication (`0 * Inf = NaN`). -/
def fvMul : FV → FV → FV
  | .fin a, .fin b => .fin (a * b)
  | .fin a, .pinf => if 0 < a then .pinf else if a < 0 then .ninf else .nan
  | .pinf, .fin a => if 0 < a then .pinf else if a < 0 then .ninf else .nan
  | .fin a, .ninf => if 0 < a then .ninf else if a < 0 then .pinf else .nan
  | .ninf, .fin a => if 0 < a then .ninf else if a < 0 then .pinf else .nan
  | .pinf, .pinf => .pinf
  | .pinf, .ninf => .ninf
  | .ninf, .pinf => .ninf
  | .ninf, .ninf => .pinf
  | _, _ => .nan

/-- IEEE division (`0/0 = NaN`, `x/0 = ±Inf` for `x ≠ 0`, `x/Inf = 0`,
`Inf/Inf = NaN`; numpy semantics). -/
def fvDiv : FV → FV → FV
  | .fin a, .fin b =>
      if b = 0 then (if a = 0 then .nan else if 0 < a then .pinf else .ninf)
      else .fin (a / b)
  | .fin _, .pinf => .fin 0
  | .fin _, .ninf => .fin 0
  | .pinf, .fin b => if b < 0 then .ninf else .pinf
  | .ninf, .fin b => if b < 0 then .pinf else .ninf
  | _, _ => .nan

/-- The binary step of `np.max`: NaN propagates (numpy `maximum`). -/
def fvMaxNp (a b : FV) : FV :=
  if a = .nan ∨ b = .nan then .nan else if fvLt a b then b else a

/-- `np.max` over a list.  The empty case returns `0` as a dummy: every
call site in the source guards on a nonempty array. -/
def npMax : List FV → FV
  | [] => .fin 0
  | a :: as => as.foldl fvMaxNp a

/-- `np.max(np.abs(x))`. -/
def npMaxAbs (l : List FV) : FV := npMax (l.map fvAbs)

/-- `np.sum` over a list (NaN propagates, `Inf + (-Inf) = NaN`). -/
def fvSum (l : List FV) : FV := l.foldl fvAdd (.fin 0)

/-- `np.nan_to_num(v, nan=0.0, posinf=0.0, neginf=0.0)` exactly as called
in `run_app.py`: every non-finite value becomes `0`. -/
def nanToNum (v : FV) : ℚ :=
  match v with
  | .fin q => q
  | _ => 0

/-- Maximum of absolute values over a rational list, `0` on empty
(`np.max(np.abs(·))` for an array of finite floats). -/
def maxAbsQ (l : List ℚ) : ℚ := l.foldr (fun v m => max |v| m) 0

/-- `safe_peak` (run_app.py): NaN/Inf-tolerant absolute peak, `0` on an
empty array. -/
def safe_peak (x : List FV) : ℚ :=
  if x.length = 0 then 0 else maxAbsQ (x.map nanToNum)

/-- `normalize_for_saving` (run_app.py): storage-path normalization.
Empty input returns `np.zeros(1)`; NaN/Inf are zeroed; a peak below
`1e-6` passes through unchanged; otherwise the signal is scaled so its
peak is `target_peak`, hard-clipped to `[-1, 1]`. -/
def normalize_for_saving (x : List FV) (target_peak : ℚ) : List ℚ :=
  if x.length = 0 then [0] else
  let xp := x.map nanToNum
  let peak := safe_peak (xp.map FV.fin)
  if peak < 1 / 1000000 then xp else
  let xp2 := if 1 < peak then xp.map (fun v => v / peak) else xp
  let peak2 := if 1 < peak then 1 else peak
  let scale := target_peak / max peak2 (1 / 1000000)
  xp2.map (fun v => min 1 (max (-1) (v * scale)))

/-! ## Range auto-detection and signal metrics (`on_audio_change`, run_app.py) -/

/-- `peak_raw = float(np.max(np.abs(x))) if x.size else 0.0`. -/
def peakOf (x : List FV) : FV := if x.length ≠ 0 then npMaxAbs x else FV.fin 0

/-- First stage of input-range auto-detection (run_app.py,
`on_audio_change`): if the raw absolute peak exceeds `1.5`, assume 16-bit
PCM range and divide by `32768`. -/
def stage1 (x : List FV) : List FV :=
  if fvGt (peakOf x) (FV.fin (3/2)) then x.map (fun v => fvDiv v (FV.fin 32768)) else x

/-- Second stage: if the (recomputed) absolute peak still exceeds `1.0`,
rescale by it. -/
def stage2 (x : List FV) : List FV :=
  if fvGt (peakOf x) (FV.fin 1) then x.map (fun v => fvDiv v (peakOf x)) else x

/-- Input-range auto-detection on the analysis path.  The source
recomputes the peak only inside the first branch; since the buffer is
unchanged in the other branch, that recomputed value is exactly
`peakOf (stage1 x)` in both cases, so the two `if` blocks compose. -/
def rangeAutoDetect (x : List FV) : List FV := stage2 (stage1 x)

/-- `rangeAutoDetect` restricted to all-finite buffers, in exact rational
arithmetic.  `rangeAutoDetect_map_fin` proves it agrees with the float
version on finite data. -/
def stage1Q (qs : List ℚ) : List ℚ :=
  if 3/2 < maxAbsQ qs then qs.map (fun v => v / 32768) else qs

def stage2Q (qs : List ℚ) : List ℚ :=
  if 1 < maxAbsQ qs then qs.map (fun v => v / maxAbsQ qs) else qs

def rangeAutoDetectQ (qs : List ℚ) : List ℚ := stage2Q (stage1Q qs)

/-- The signal metrics computed by `on_audio_change` (run_app.py).
`rmsSq` is the mean of the squared samples (`rms = sqrt(rmsSq)`; the
square root is irrational, so the square is carried instead — `sqrt` is
strictly monotone on `[0, ∞)`, so all ordering/zero facts transfer).
`crestIsInf` records which branch of
`crest = peak/(rms+1e-12) if rms > 0 else math.inf` is taken. -/
structure SignalMetrics where
  peak : FV
  rmsSq : FV
  clip_ratio : ℚ
  silence_ratio : ℚ
  crestIsInf : Bool
deriving DecidableEq, Repr

/-- The `rms > 0` test of the crest-factor branch, expressed on the
squared rms: `sqrt q > 0 ↔ q > 0` for finite `q ≥ 0`, `sqrt(+inf) = +inf
> 0`, and `NaN > 0` is false. -/
def rmsSqPos : FV → Bool
  | .fin q => decide (0 < q)
  | .pinf => true
  | _ => false

/-- Signal metrics of `on_audio_change` after range auto-detection.
`clip_ratio`/`silence_ratio` are boolean means, hence always finite
rationals (typed `ℚ`).  The thresholds are the `clip_level` and
`silence_thresh` computed upstream. -/
def metricsOf (x0 : List FV) (clip_level silence_thresh : ℚ) : SignalMetrics :=
  let x := rangeAutoDetect x0
  let rmsSq := if x.length ≠ 0
    then fvDiv (fvSum (x.map (fun v => fvMul v v))) (FV.fin (x.length : ℚ))
    else FV.fin 0
  { peak := peakOf x
    rmsSq := rmsSq
    clip_ratio := if x.length ≠ 0
      then (x.countP (fun v => fvGt (fvAbs v) (FV.fin clip_level)) : ℚ) / (x.length : ℚ)
      else 0
    silence_ratio := if x.length ≠ 0
      then (x.countP (fun v => fvLt (fvAbs v) (FV.fin silence_thresh)) : ℚ) / (x.length : ℚ)
      else 1
    crestIsInf := ! rmsSqPos rmsSq }

/-- Python `max(a, b)` (returns `b` iff `b > a`; NaN-asymmetric like
CPython). -/
def pyMaxFV (a b : FV) : FV := if fvGt b a then b else a

/-- The squared argument of the logarithm in
`dbfs = 20*log10(max(rms, 1e-12))`: `max(rms,1e-12)² = max(rmsSq,1e-24)`
for the nonnegative `rms` actually produced.  `dbfs` is a finite real iff
this value is a positive rational, and `dbfs = 10*log10` of it. -/
def SignalMetrics.dbfsArgSq (m : SignalMetrics) : FV :=
  pyMaxFV m.rmsSq (FV.fin (1 / 10 ^ 24))

/-- Mean of squares after range auto-detection (all-finite data). -/
def meanSqQ (qs : List ℚ) : ℚ :=
  if qs.length = 0 then 0
  else ((rangeAutoDetectQ qs).map (fun v => v * v)).sum / (qs.length : ℚ)

/-- Fraction of samples whose magnitude exceeds the clip level
(all-finite data). -/
def clipRatioQ (qs : List ℚ) (cl : ℚ) : ℚ :=
  if qs.length = 0 then 0
  else ((rangeAutoDetectQ qs).countP (fun v => decide (cl < |v|)) : ℚ) / (qs.length : ℚ)

/-- Fraction of samples whose magnitude is below the silence threshold
(all-finite data). -/
def silenceRatioQ (qs : List ℚ) (st : ℚ) : ℚ :=
  if qs.length = 0 then 1
  else ((rangeAutoDetectQ qs).countP (fun v => decide (|v| < st)) : ℚ) / (qs.length : ℚ)

/-! ## Spectrogram framing
(`make_spectrogram_plot` and `analyze_spectrum_for_comment`, run_app.py;
both use the identical `n_fft = 1024`, `hop = 512`, `max_seconds = 10`
framing loop). -/

/-- Cap to the first `max_seconds = 10` seconds:
`if len(x) > sr*max_seconds: x = x[: sr*max_seconds]`. -/
def capTenSeconds (x : List ℚ) (sr : ℕ) : List ℚ :=
  if sr * 10 < x.length then x.take (sr * 10) else x

/-- `n_frames = 1 + max(0, (len(x) - n_fft) // hop)` with `n_fft = 1024`,
`hop = 512`.  Python floor division of a negative numerator is negative,
so `max(0, ·)` is exactly Nat truncated subtraction and division.  (The
source's following `if n_frames <= 0` pad branch is dead code: this
value is always at least `1`.) -/
def nFrames (L : ℕ) : ℕ := 1 + (L - 1024) / 512

/-- Frame `i` of the loop body: `frame = x[i*hop : i*hop + n_fft]`,
zero-padded to `n_fft` when it comes up short. -/
def frameAt (x : List ℚ) (i : ℕ) : List ℚ :=
  let frame := (x.drop (i * 512)).take 1024
  frame ++ List.replicate (1024 - frame.length) 0

/-- All analysis frames of an (already capped) buffer. -/
def framesOf (x : List ℚ) : List (List ℚ) :=
  (List.range (nFrames x.length)).map (frameAt x)

/-- Sample index `i` of a buffer of length `L` lies inside some analysis
frame. -/
def contributes (L i : ℕ) : Bool :=
  (List.range (nFrames L)).any
    (fun f => decide (512 * f ≤ i) && decide (i < 512 * f + 1024))

/-! ## Band-energy ratios (`analyze_spectrum_for_comment`, run_app.py)

The magnitude layer `np.abs(np.fft.rfft(frame * np.hanning(1024)))` is an
external numpy computation producing irrational reals; it is modelled by
a parameter `mag : List ℚ → List ℚ` constrained by the properties the
real computation certainly has: 513 output bins per 1024-sample frame,
nonnegative outputs, and positive homogeneity (windowing, the DFT, and
the complex absolute value are all positively homogeneous). -/

/-- `np.fft.rfftfreq(n_fft, d=1.0/sr)`: the `n_fft/2 + 1` frequencies
`k*sr/n_fft`. -/
def rfftfreq (n_fft : ℕ) (sr : ℕ) : List ℚ :=
  (List.range (n_fft / 2 + 1)).map (fun (k : ℕ) => (k : ℚ) * (sr : ℚ) / (n_fft : ℚ))

/-- `freqs < 300` (low band row mask). -/
def pLow (f : ℚ) : Bool := decide (f < 300)

/-- `(freqs >= 300) & (freqs < 3000)` (mid band row mask). -/
def pMid (f : ℚ) : Bool := decide (300 ≤ f) && decide (f < 3000)

/-- `freqs >= 3000` (high band row mask). -/
def pHigh (f : ℚ) : Bool := decide (3000 ≤ f)

/-- `spec_mag[mask].sum()`: total magnitude over the rows whose frequency
satisfies `p`.  (The source sums the `[freq, time]`-transposed array;
summation order is immaterial, so the frame-major order is used.) -/
def bandSum (p : ℚ → Bool) (freqs : List ℚ) (frames : List (List ℚ)) : ℚ :=
  (frames.map (fun fr => (((freqs.zip fr).filter (fun pm => p pm.1)).map
    (fun pm => pm.2)).sum)).sum

/-- `spec_mag.sum()`. -/
def totalMag (frames : List (List ℚ)) : ℚ := (frames.map (fun fr => fr.sum)).sum

/-- The result dictionary of `analyze_spectrum_for_comment`. -/
structure BandEnergy where
  duration : ℚ
  ratio_low : ℚ
  ratio_mid : ℚ
  ratio_high : ℚ
deriving DecidableEq, Repr

/-- `analyze_spectrum_for_comment` (run_app.py): 10-second cap, 1024/512
Hann framing (via `framesOf`), magnitude layer `mag`, band sums divided
by `total + 1e-12`.  Empty input or non-positive sample rate returns the
all-zero structure. -/
def analyzeSpectrumForComment (mag : List ℚ → List ℚ) (x : List ℚ) (sr : ℕ) :
    BandEnergy :=
  if x.length = 0 ∨ sr = 0 then ⟨0, 0, 0, 0⟩
  else
    let xc := capTenSeconds x sr
    let mags := (framesOf xc).map mag
    let freqs := rfftfreq 1024 sr
    let total := totalMag mags + 1 / 10 ^ 12
    ⟨(xc.length : ℚ) / (sr : ℚ),
      bandSum pLow freqs mags / total,
      bandSum pMid freqs mags / total,
      bandSum pHigh freqs mags / total⟩

/-- C4 exactly as the specification states it: for every admissible
magnitude layer (513 bins per frame, nonnegative, positively homogeneous
— all properties of `np.abs(np.fft.rfft(frame * hann))`) and every
non-silent input with positive sample rate, the three band ratios sum to
`1` within `1e-3`. -/
def bandRatioClaim : Prop :=
  ∀ mag : List ℚ → List ℚ,
    (∀ fr, fr.length = 1024 → (mag fr).length = 513) →
    (∀ fr, ∀ v ∈ mag fr, 0 ≤ v) →
    (∀ (c : ℚ) (fr : List ℚ), 0 ≤ c →
      mag (fr.map (fun v => c * v)) = (mag fr).map (fun v => c * v)) →
    ∀ (x : List ℚ) (sr : ℕ), sr ≠ 0 → (∃ v ∈ x, v ≠ 0) →
      |(analyzeSpectrumForComment mag x sr).ratio_low
        + (analyzeSpectrumForComment mag x sr).ratio_mid
        + (analyzeSpectrumForComment mag x sr).ratio_high - 1| ≤ 1 / 10 ^ 3

/-! ## Safe rule-expression evaluation (`_safe_eval_expr`, run_app.py)

Python's `ast.parse` is an external parser; its output is modelled by
`PyExpr`: the expression node kinds relevant to `mode="eval"`, with
`other` standing for every remaining node kind (lambda, ternary,
comprehension, f-string, ...) — none of which are in `_ALLOWED_NODES`.
A failed parse is `none` at the call boundary (`Option PyExpr`). -/

/-- `ast.And` / `ast.Or` (both allowed). -/
inductive BoolOpK where
  | and | or
deriving DecidableEq, Repr

/-- `ast.operator` nodes.  Only the first six appear in
`_ALLOWED_NODES`; `FloorDiv`, the bitwise/shift operators and `MatMult`
do not. -/
inductive OperatorK where
  | add | sub | mult | div | mod | pow
  | floorDiv | bitAnd | bitOr | bitXor | lshift | rshift | matMult
deriving DecidableEq, Repr

/-- `ast.unaryop` nodes.  `USub`/`UAdd` are allowed; `Not` and `Invert`
are not. -/
inductive UnaryOpK where
  | usub | uadd | notOp | invert
deriving DecidableEq, Repr

/-- `ast.cmpop` nodes.  The six numeric comparisons are allowed;
`Is`/`IsNot`/`In`/`NotIn` are not. -/
inductive CmpOpK where
  | gt | gte | lt | lte | eq | ne
  | isOp | isNot | inOp | notIn
deriving DecidableEq, Repr

/-- Python runtime values arising from a rule condition: numbers
(idealized as exact rationals), booleans, strings, `None`. -/
inductive PyVal where
  | num : ℚ → PyVal
  | bool : Bool → PyVal
  | str : String → PyVal
  | pynone : PyVal
deriving DecidableEq, Repr

/-- Python expression tree (`ast.parse(expr, mode="eval")` body).
`compare` pairs each comparison operator with its right comparand
(CPython keeps two parallel lists of equal length). -/
inductive PyExpr where
  | const : PyVal → PyExpr
  | name : String → PyExpr
  | boolOp : BoolOpK → List PyExpr → PyExpr
  | binOp : PyExpr → OperatorK → PyExpr → PyExpr
  | unaryOp : UnaryOpK → PyExpr → PyExpr
  | compare : PyExpr → List (CmpOpK × PyExpr) → PyExpr
  | call : PyExpr → List PyExpr → PyExpr
  | attribute : PyExpr → String → PyExpr
  | subscript : PyExpr → PyExpr → PyExpr
  | other : PyExpr
deriving Repr

def allowedOperator : OperatorK → Bool
  | .add | .sub | .mult | .div | .mod | .pow => true
  | _ => false

def allowedUnary : UnaryOpK → Bool
  | .usub | .uadd => true
  | _ => false

def allowedCmp : CmpOpK → Bool
  | .gt | .gte | .lt | .lte | .eq | .ne => true
  | _ => false

mutual

/-- The `_check` visitor of `_safe_eval_expr`: a tree passes iff every
node's type is in `_ALLOWED_NODES`.  (`Expression`, `Name`, `Load`,
`Constant` are allowed; `Call`, `Attribute`, `Subscript` and every
`other` node kind are not; operator nodes are themselves visited, which
is how `Not`, `FloorDiv`, `Is`, `In`, ... get rejected.) -/
def checkAllowed : PyExpr → Bool
  | .const _ => true
  | .name _ => true
  | .boolOp _ vs => checkAllowedList vs
  | .binOp l op r => allowedOperator op && checkAllowed l && checkAllowed r
  | .unaryOp op e => allowedUnary op && checkAllowed e
  | .compare l rest => checkAllowed l && checkAllowedChain rest
  | .call _ _ => false
  | .attribute _ _ => false
  | .subscript _ _ => false
  | .other => false

def checkAllowedList : List PyExpr → Bool
  | [] => true
  | e :: es => checkAllowed e && checkAllowedList es

def checkAllowedChain : List (CmpOpK × PyExpr) → Bool
  | [] => true
  | (op, e) :: rest => allowedCmp op && checkAllowed e && checkAllowedChain rest

end


/-- Python truthiness of the values in scope. -/
def truthy : PyVal → Bool
  | .num q => decide (q ≠ 0)
  | .bool b => b
  | .str s => decide (s ≠ "")
  | .pynone => false

/-- Numeric coercion: Python `bool` is an `int`. -/
def toNumQ : PyVal → Option ℚ
  | .num q => some q
  | .bool b => some (if b then 1 else 0)
  | _ => Option.none

/-- Binary arithmetic.  Division/modulo by zero raise; float modulo is
`x - y*floor(x/y)`.  A non-integer exponent yields an irrational float
outside the exact-rational value domain and is modelled as a failure
(as are string/None operands; rule environments bind only numbers). -/
def evalBinOp (op : OperatorK) (a b : PyVal) : Except Unit PyVal :=
  match toNumQ a, toNumQ b with
  | some x, some y =>
      match op with
      | .add => .ok (.num (x + y))
      | .sub => .ok (.num (x - y))
      | .mult => .ok (.num (x * y))
      | .div => if y = 0 then .error () else .ok (.num (x / y))
      | .mod => if y = 0 then .error () else .ok (.num (x - y * (⌊x / y⌋ : ℤ)))
      | .pow =>
          if y.den = 1 then
            if x = 0 ∧ y.num < 0 then .error () else .ok (.num (x ^ y.num))
          else .error ()
      | _ => .error ()
  | _, _ => .error ()

/-- Python `==` on the value domain: numeric across num/bool, string to
string, `None` to `None`; mixed types compare unequal without raising. -/
def pyEq (a b : PyVal) : Bool :=
  match toNumQ a, toNumQ b with
  | some x, some y => decide (x = y)
  | _, _ =>
      match a, b with
      | .str s, .str t => decide (s = t)
      | .pynone, .pynone => true
      | _, _ => false

/-- Order comparison: numerically on numbers/booleans, lexicographically
on strings, `TypeError` (failure) on mixed/other operands. -/
def cmpVals (fq : ℚ → ℚ → Bool) (fs : String → String → Bool) (a b : PyVal) :
    Except Unit PyVal :=
  match toNumQ a, toNumQ b with
  | some x, some y => .ok (.bool (fq x y))
  | _, _ =>
      match a, b with
      | .str s, .str t => .ok (.bool (fs s t))
      | _, _ => .error ()

/-- One comparison operator.  `is`/`in` are rejected by the allow-list
before evaluation ever happens; they are modelled as failures here. -/
def evalCmpOp : CmpOpK → PyVal → PyVal → Except Unit PyVal
  | .eq, a, b => .ok (.bool (pyEq a b))
  | .ne, a, b => .ok (.bool (! pyEq a b))
  | .gt, a, b => cmpVals (fun x y => decide (y < x)) (fun s t => decide (t < s)) a b
  | .gte, a, b => cmpVals (fun x y => decide (y ≤ x)) (fun s t => decide (t ≤ s)) a b
  | .lt, a, b => cmpVals (fun x y => decide (x < y)) (fun s t => decide (s < t)) a b
  | .lte, a, b => cmpVals (fun x y => decide (x ≤ y)) (fun s t => decide (s ≤ t)) a b
  | _, _, _ => .error ()

/-- Unary operators.  `not` evaluates fine in Python but is rejected by
the allow-list; `~` on a float is a `TypeError`. -/
def evalUnaryOp (op : UnaryOpK) (v : PyVal) : Except Unit PyVal :=
  match op with
  | .usub => match toNumQ v with | some x => .ok (.num (-x)) | _ => .error ()
  | .uadd => match toNumQ v with | some x => .ok (.num x) | _ => .error ()
  | .notOp => .ok (.bool (! truthy v))
  | .invert => .error ()

mutual

/-- Tree-walking evaluation mirroring CPython `eval` of the compiled
expression with `{"__builtins__": {}}` globals and the metrics dict as
locals: the environment is the only source of name bindings; any name
lookup failure, type error, or zero-division is an exception
(`.error`), which the caller of `_safe_eval_expr` turns into `False`. -/
def evalExpr (env : String → Option ℚ) : PyExpr → Except Unit PyVal
  | .const v => .ok v
  | .name s =>
      match env s with
      | some q => .ok (.num q)
      | Option.none => .error ()
  | .boolOp op vs => evalBoolChain env op vs
  | .binOp l op r => do
      let a ← evalExpr env l
      let b ← evalExpr env r
      evalBinOp op a b
  | .unaryOp op e => do
      let v ← evalExpr env e
      evalUnaryOp op v
  | .compare l rest => do
      let v ← evalExpr env l
      evalCmpChain env v rest
  | .call _ _ => .error ()
  | .attribute _ _ => .error ()
  | .subscript _ _ => .error ()
  | .other => .error ()

/-- Short-circuit `and`/`or`: return the first falsy (resp. truthy)
operand, else the last operand.  The parser never emits an empty
operand list. -/
def evalBoolChain (env : String → Option ℚ) (op : BoolOpK) :
    List PyExpr → Except Unit PyVal
  | [] => .error ()
  | [e] => evalExpr env e
  | e :: e' :: es => do
      let v ← evalExpr env e
      match op with
      | .and => if truthy v then evalBoolChain env op (e' :: es) else .ok v
      | .or => if truthy v then .ok v else evalBoolChain env op (e' :: es)

/-- Chained comparison `a < b < c`: each comparand is evaluated once;
the chain short-circuits on the first false link.  The parser never
emits an empty operator list. -/
def evalCmpChain (env : String → Option ℚ) (v : PyVal) :
    List (CmpOpK × PyExpr) → Except Unit PyVal
  | [] => .error ()
  | [(op, e)] => do
      let w ← evalExpr env e
      evalCmpOp op v w
  | (op, e) :: p :: rest => do
      let w ← evalExpr env e
      let r ← evalCmpOp op v w
      if truthy r then evalCmpChain env w (p :: rest) else .ok r

end


/-- `_safe_eval_expr` (run_app.py): parse (modelled as the `Option` at
the boundary), validate against the allow-list, evaluate with no
builtins and the metrics environment as the only bindings; every
failure at any stage yields `False` and nothing propagates. -/
def safeEvalExpr (parsed : Option PyExpr) (env : String → Option ℚ) : Bool :=
  match parsed with
  | Option.none => false
  | some tree =>
      if checkAllowed tree then
        match evalExpr env tree with
        | .ok v => truthy v
        | .error _ => false
      else false

/-! ## Rule-based template feedback (`render_rule_based_feedback`, run_app.py) -/

/-- The `if:` field of a rule after `str(rule.get("if", "")).strip()`:
empty (falsy, rule skipped before evaluation), a nonempty string that
fails to parse, or a parsed expression tree. -/
inductive CondSrc where
  | empty : CondSrc
  | parseFail : CondSrc
  | parsed : PyExpr → CondSrc
deriving Repr

/-- The `text:` field of a rule: a plain string or a list of strings. -/
inductive RuleText where
  | txt : String → RuleText
  | lst : List String → RuleText
deriving DecidableEq, Repr

structure TplRule where
  cond : CondSrc
  text : RuleText

/-- A template section; `heading` is `sec.get("heading", <default>)`
with the default already resolved at load time. -/
structure TplSection where
  heading : String
  rules : List TplRule

structure TemplateData where
  sections : List TplSection

/-- Python falsiness of the text field (`not text`): the empty string
and the empty list. -/
def RuleText.falsy : RuleText → Bool
  | .txt s => decide (s = "")
  | .lst l => decide (l = [])

def CondSrc.toParsed : CondSrc → Option PyExpr
  | .parsed e => some e
  | _ => Option.none

/-- `random.choice(text)` for list-valued text, abstracted over the
PRNG as a selection function `pick`; plain text is `str(...)`d as is. -/
def renderText (pick : List String → String) : RuleText → String
  | .txt s => s
  | .lst l => pick l

/-- One iteration of the rule loop: `continue` when the condition string
is empty or the text falsy; otherwise evaluate with `_safe_eval_expr`
and, on firing, contribute exactly the one line `"- " ++ text`. -/
def ruleLine (pick : List String → String) (env : String → Option ℚ)
    (r : TplRule) : Option String :=
  match r.cond with
  | .empty => Option.none
  | c =>
      if r.text.falsy then Option.none
      else if safeEvalExpr c.toParsed env then some ("- " ++ renderText pick r.text)
      else Option.none

def sectionLines (pick : List String → String) (env : String → Option ℚ)
    (sec : TplSection) : List String :=
  sec.rules.filterMap (ruleLine pick env)

/-- The per-section output: `(heading, lines)` for each section with at
least one firing rule; sections with zero firing rules are omitted
(`if lines: parts.append(...)`). -/
def renderParts (pick : List String → String) (env : String → Option ℚ)
    (data : TemplateData) : List (String × List String) :=
  data.sections.filterMap (fun sec =>
    if sectionLines pick env sec = [] then Option.none
    else some (sec.heading, sectionLines pick env sec))

/-- `render_rule_based_feedback`: Markdown assembly of the parts; the
empty string when no template is loaded or no rule fires anywhere. -/
def renderRuleBasedFeedback (pick : List String → String)
    (tpl : Option TemplateData) (metrics : String → Option ℚ) : String :=
  match tpl with
  | Option.none => ""
  | some data =>
      String.join ((renderParts pick metrics data).map
        (fun p => "\n---\n\n## " ++ p.1 ++ "\n" ++ String.intercalate "\n" p.2))

/-- `ast.parse("rms > 0.05", mode="eval").body`. -/
def condRms : PyExpr := .compare (.name "rms") [(.gt, .const (.num (1/20)))]

/-- The scenario template: one section, one rule
`{if: "rms > 0.05", text: "loud enough"}`. -/
def tplLoudEnough : TemplateData := ⟨[⟨"H", [⟨.parsed condRms, .txt "loud enough"⟩]⟩]⟩

/-- The scenario environment `{rms: v}`. -/
def envRms (v : ℚ) : String → Option ℚ :=
  fun s => if s = "rms" then some v else Option.none

/-! ## Trait evaluation and feedback composition (`src/speech_analyzer.py`) -/

/-- The five feature values handed to `_evaluate_speech_features`.
Field names romanize the dict keys: `hayasa` = 速さ (speed, WPM),
`yokuyo` = 抑揚 (intonation), `onryo` = 音量 (volume, dB),
`meiryosa` = 明瞭さ (clarity), `ma` = 間 (pauses, s). -/
structure SpeechFeatures where
  hayasa : ℚ
  yokuyo : ℚ
  onryo : ℚ
  meiryosa : ℚ
  ma : ℚ
deriving DecidableEq, Repr

/-- The categorical evaluation per trait (same field naming). -/
structure SpeechEvaluation where
  hayasa : String
  yokuyo : String
  onryo : String
  meiryosa : String
  ma : String
deriving DecidableEq, Repr

/-- `voice_metrics[k]["ideal_range"]`: the configured (lo, hi) table of
the `SpeechAnalyzer` constructor. -/
def idealRange : String → Option (ℚ × ℚ)
  | "速さ" => some (120, 150)
  | "抑揚" => some (1/2, 3/2)
  | "音量" => some (60, 75)
  | "明瞭さ" => some (7/10, 1)
  | "間" => some (1/2, 2)
  | _ => Option.none

/-- `_evaluate_speech_features`: the five if/elif/else chains, with the
table's (lo, hi) constants resolved.  Clarity has no high-side branch. -/
def evaluateSpeechFeatures (f : SpeechFeatures) : SpeechEvaluation :=
  { hayasa := if f.hayasa < 120 then "too_slow"
      else if 150 < f.hayasa then "too_fast" else "good"
    yokuyo := if f.yokuyo < 1/2 then "too_flat"
      else if 3/2 < f.yokuyo then "too_varied" else "good"
    onryo := if f.onryo < 60 then "too_quiet"
      else if 75 < f.onryo then "too_loud" else "good"
    meiryosa := if f.meiryosa < 7/10 then "unclear" else "good"
    ma := if f.ma < 1/2 then "too_few"
      else if 2 < f.ma then "too_many" else "good" }

/-- `voice_metrics[metric]["feedback"][category]`; `none` = `KeyError`. -/
def voiceMetricsFeedback : String → String → Option String
  | "速さ", "too_slow" => some "もう少し速く話すと、聞き手の注意を維持しやすくなります。"
  | "速さ", "too_fast" => some "少しゆっくり話すと、聞き手が内容を理解しやすくなります。"
  | "速さ", "good" => some "話すスピードは適切です。聞き手が内容を理解しやすい速さです。"
  | "抑揚", "too_flat" => some "もう少し抑揚をつけると、話が生き生きとして聞き手の興味を引きます。"
  | "抑揚", "too_varied" => some "抑揚が大きすぎると落ち着きがない印象を与えることがあります。少し抑えめにすると良いでしょう。"
  | "抑揚", "good" => some "抑揚のバランスが良く、聞き手の興味を引く話し方です。"
  | "音量", "too_quiet" => some "もう少し声を大きくすると、自信があり説得力のある印象になります。"
  | "音量", "too_loud" => some "声が大きすぎると威圧感を与えることがあります。少し抑えめにすると良いでしょう。"
  | "音量", "good" => some "声の大きさは適切です。聞き取りやすく、自信のある印象を与えています。"
  | "明瞭さ", "unclear" => some "発音をもう少し明確にすると、聞き手が内容を理解しやすくなります。"
  | "明瞭さ", "good" => some "発音が明確で、聞き手が内容を理解しやすい話し方です。"
  | "間", "too_few" => some "重要なポイントで間を取ると、聞き手が内容を消化する時間ができ、印象に残りやすくなります。"
  | "間", "too_many" => some "間が多すぎると話の流れが途切れる印象を与えることがあります。"
  | "間", "good" => some "間の取り方が適切で、聞き手が内容を理解しやすい話し方です。"
  | _, _ => Option.none

/-- The four overall-assessment tiers of `_generate_feedback`. -/
def overallTier1 : String := "素晴らしい話し方です！聞き手に強い印象を与えることができるでしょう。"

def overallTier2 : String := "良い話し方です。いくつかの点を改善すると、さらに効果的になります。"

def overallTier3 : String := "基本的な話し方はできています。改善点に取り組むと、より効果的になります。"

def overallTier4 : String := "話し方に改善の余地があります。アドバイスを参考に練習を続けましょう。"

/-- `"速さ" in evaluation and evaluation["速さ"] != "good"`. -/
def adviceTrigger (evaluation : List (String × String)) (k : String) : Bool :=
  match evaluation.lookup k with
  | some r => ! (r == "good")
  | Option.none => false

/-- The advice block of `_generate_feedback`: one conditional line per
non-good trait, plus the unconditional closing encouragement. -/
def adviceFor (evaluation : List (String × String)) : List String :=
  (if adviceTrigger evaluation "速さ" then
    ["話すスピードを意識して練習してみましょう。メトロノームを使うと効果的です。"] else [])
  ++ (if adviceTrigger evaluation "抑揚" then
    ["感情を込めて話す練習をしましょう。詩や物語の朗読が効果的です。"] else [])
  ++ (if adviceTrigger evaluation "音量" then
    ["適切な声の大きさを意識しましょう。録音して確認すると良いでしょう。"] else [])
  ++ (if adviceTrigger evaluation "明瞭さ" then
    ["発音練習を行いましょう。早口言葉や滑舌トレーニングが効果的です。"] else [])
  ++ (if adviceTrigger evaluation "間" then
    ["重要なポイントで意識的に間を取る練習をしましょう。"] else [])
  ++ ["継続的な練習が話し方の上達につながります。自分の声を録音して聞くことで、改善点が見えてきます。"]

/-- The feedback dictionary of `_generate_feedback` (良い点 / 改善点 /
総合評価 / アドバイス). -/
structure Feedback where
  goodPoints : List String
  improvePoints : List String
  overall : String
  advice : List String
deriving DecidableEq, Repr

/-- `_generate_feedback` (speech_analyzer.py).  `evaluation` is the
trait→category dict in insertion order.  A missing feedback-table entry
(`KeyError`) or an empty evaluation (`ZeroDivisionError` in
`good_points / total_points`) raises; exceptions are modelled as
`none`. -/
def generateFeedback (evaluation : List (String × String)) : Option Feedback :=
  match evaluation.mapM (fun mr =>
      (voiceMetricsFeedback mr.1 mr.2).map (fun t => (mr.1, mr.2, mr.1 ++ ": " ++ t))) with
  | Option.none => Option.none
  | some entries =>
      if evaluation.length = 0 then Option.none
      else
        let good := (entries.filter (fun e => e.2.1 == "good")).map (fun e => e.2.2)
        let bad := (entries.filter (fun e => ! (e.2.1 == "good"))).map (fun e => e.2.2)
        let score : ℚ := (good.length : ℚ) / (evaluation.length : ℚ)
        some ⟨good, bad,
          if 4/5 ≤ score then overallTier1
          else if 3/5 ≤ score then overallTier2
          else if 2/5 ≤ score then overallTier3
          else overallTier4,
          adviceFor evaluation⟩

/-- `score = good_points / total_points` as computed by
`_generate_feedback`; on successful runs `good_points` is the number of
"good" categories. -/
def goodScore (evaluation : List (String × String)) : ℚ :=
  (evaluation.countP (fun mr => mr.2 == "good") : ℚ) / (evaluation.length : ℚ)

/-! ## Theorems -/

theorem maxAbsQ_nonneg (l : List ℚ) : 0 ≤ maxAbsQ l := by
  induction l with
  | nil => simp [maxAbsQ]
  | cons a as ih =>
      simp only [maxAbsQ, List.foldr_cons] at *
      exact le_trans ih (le_max_right _ _)

theorem abs_le_maxAbsQ {l : List ℚ} {v : ℚ} (h : v ∈ l) : |v| ≤ maxAbsQ l := by
  induction l with
  | nil => cases h
  | cons a as ih =>
      rcases List.mem_cons.mp h with rfl | h'
      · exact le_max_left _ _
      · exact le_trans (ih h') (le_max_right _ _)

theorem maxAbsQ_map_mul (l : List ℚ) (c : ℚ) (hc : 0 ≤ c) :
    maxAbsQ (l.map (fun v => v * c)) = maxAbsQ l * c := by
  induction l with
  | nil => simp [maxAbsQ]
  | cons a as ih =>
      simp only [maxAbsQ, List.map_cons, List.foldr_cons] at *
      rw [ih, abs_mul, abs_of_nonneg hc, max_mul_of_nonneg _ _ hc]

theorem maxAbsQ_map_div (l : List ℚ) (c : ℚ) (hc : 0 < c) :
    maxAbsQ (l.map (fun v => v / c)) = maxAbsQ l / c := by
  have h0 : 0 ≤ c⁻¹ := le_of_lt (inv_pos.mpr hc)
  have := maxAbsQ_map_mul l c⁻¹ h0
  simpa [div_eq_mul_inv] using this

theorem safe_peak_map_fin (qs : List ℚ) : safe_peak (qs.map FV.fin) = maxAbsQ qs := by
  cases qs with
  | nil => simp [safe_peak, maxAbsQ]
  | cons a as =>
      simp only [safe_peak, List.length_map, List.map_map]
      have : (nanToNum ∘ FV.fin) = id := by funext q; rfl
      simp [this]

theorem nanToNum_fin (q : ℚ) : nanToNum (FV.fin q) = q := rfl

theorem map_fin_nanToNum (l : List ℚ) : (l.map FV.fin).map nanToNum = l := by
  induction l with
  | nil => rfl
  | cons a as ih => simp [ih, nanToNum]

/-- `np.clip(v*s, -1, 1)` is the identity when the scaled peak is at
most `1`. -/
theorem scaled_clip_eq (l : List ℚ) (s : ℚ) (hs : 0 ≤ s)
    (hm : maxAbsQ l * s ≤ 1) :
    l.map (fun v => min 1 (max (-1) (v * s))) = l.map (fun v => v * s) := by
  apply List.map_congr_left
  intro v hv
  have h1 : |v * s| ≤ 1 := by
    rw [abs_mul, abs_of_nonneg hs]
    calc |v| * s ≤ maxAbsQ l * s := mul_le_mul_of_nonneg_right (abs_le_maxAbsQ hv) hs
    _ ≤ 1 := hm
  have h2 := abs_le.mp h1
  rw [max_eq_right h2.1, min_eq_right h2.2]

theorem normalize_main_case (x : List FV) (hx : ¬ x.length = 0)
    (hp : ¬ safe_peak ((x.map nanToNum).map FV.fin) < 1 / 1000000) :
    normalize_for_saving x (49/50)
        = (if 1 < maxAbsQ (x.map nanToNum) then
             (x.map nanToNum).map (fun v => v / maxAbsQ (x.map nanToNum))
           else x.map nanToNum).map
            (fun v => v * ((49:ℚ)/50 /
              max (if 1 < maxAbsQ (x.map nanToNum) then 1 else maxAbsQ (x.map nanToNum))
                (1 / 1000000))) ∧
      maxAbsQ (normalize_for_saving x (49/50)) = 49/50 := by
  rw [safe_peak_map_fin] at hp
  push_neg at hp
  have hp0 : (0:ℚ) < maxAbsQ (x.map nanToNum) := lt_of_lt_of_le (by norm_num) hp
  have hform : normalize_for_saving x (49/50)
      = (if 1 < maxAbsQ (x.map nanToNum) then
           (x.map nanToNum).map (fun v => v / maxAbsQ (x.map nanToNum))
         else x.map nanToNum).map
          (fun v => min 1 (max (-1) (v * ((49:ℚ)/50 /
            max (if 1 < maxAbsQ (x.map nanToNum) then 1 else maxAbsQ (x.map nanToNum))
              (1 / 1000000))))) := by
    simp only [normalize_for_saving, if_neg hx, safe_peak_map_fin,
      if_neg (not_lt.mpr hp)]
  by_cases h1 : 1 < maxAbsQ (x.map nanToNum)
  · have hmax : max (1:ℚ) (1 / 1000000) = 1 := by norm_num
    have hscale : (49:ℚ)/50 / max (1:ℚ) (1 / 1000000) = 49/50 := by rw [hmax]; norm_num
    have hdiv : maxAbsQ ((x.map nanToNum).map (fun v => v / maxAbsQ (x.map nanToNum))) = 1 := by
      rw [maxAbsQ_map_div _ _ hp0, div_self (ne_of_gt hp0)]
    have hclip := scaled_clip_eq
      ((x.map nanToNum).map (fun v => v / maxAbsQ (x.map nanToNum))) ((49:ℚ)/50)
      (by norm_num) (by rw [hdiv]; norm_num)
    rw [hform, if_pos h1, if_pos h1, hmax]
    constructor
    · rw [show ((49:ℚ)/50 / 1) = 49/50 by norm_num]
      exact hclip
    · rw [show ((49:ℚ)/50 / 1) = 49/50 by norm_num, hclip,
        maxAbsQ_map_mul _ _ (by norm_num : (0:ℚ) ≤ 49/50), hdiv]
      norm_num
  · have hmaxp : max (maxAbsQ (x.map nanToNum)) (1 / 1000000) = maxAbsQ (x.map nanToNum) :=
      max_eq_left hp
    have hs0 : (0:ℚ) ≤ (49:ℚ)/50 / maxAbsQ (x.map nanToNum) :=
      le_of_lt (div_pos (by norm_num) hp0)
    have hclip := scaled_clip_eq (x.map nanToNum)
      ((49:ℚ)/50 / maxAbsQ (x.map nanToNum)) hs0
      (by
        rw [mul_div_assoc', mul_comm, mul_div_assoc, div_self (ne_of_gt hp0), mul_one]
        norm_num)
    rw [hform, if_neg h1, if_neg h1, hmaxp]
    constructor
    · exact hclip
    · rw [hclip, maxAbsQ_map_mul _ _ hs0, mul_div_assoc', mul_comm,
        mul_div_assoc, div_self (ne_of_gt hp0), mul_one]

/-- One application of `normalize_for_saving` leaves a nonempty output
with peak exactly `0.98`; a second application then scales by `1` and
leaves it unchanged. -/
theorem normalize_second (l : List ℚ) (hl : l ≠ []) (hpk : maxAbsQ l = 49/50) :
    normalize_for_saving (l.map FV.fin) (49/50) = l := by
  have hlen : ¬ (l.map FV.fin).length = 0 := by
    simpa [List.length_eq_zero] using hl
  have hfix := normalize_main_case (l.map FV.fin)
    hlen
    (by rw [map_fin_nanToNum, safe_peak_map_fin, hpk]; norm_num)
  rw [map_fin_nanToNum, hpk] at hfix
  have h1 : ¬ (1:ℚ) < 49/50 := by norm_num
  rw [if_neg h1, if_neg h1] at hfix
  rw [hfix.1]
  have hmaxp : max ((49:ℚ)/50) (1 / 1000000) = 49/50 := by norm_num
  rw [hmaxp, div_self (by norm_num : ((49:ℚ)/50) ≠ 0)]
  simp

/-- C5.  The storage-path normalization `normalize_for_saving` (with its
default target peak `0.98`) is idempotent: a second application returns
the first application's output unchanged, and the first application
already leaves the absolute peak at or below `0.98`. -/
theorem normalize_for_saving_idempotent (x : List FV) :
    normalize_for_saving ((normalize_for_saving x (49/50)).map FV.fin) (49/50)
        = normalize_for_saving x (49/50) ∧
      safe_peak ((normalize_for_saving x (49/50)).map FV.fin) ≤ 49 / 50 := by
  by_cases hx : x.length = 0
  · have hz : normalize_for_saving x (49/50) = [0] := by
      simp [normalize_for_saving, hx]
    rw [hz]
    constructor
    · simp only [normalize_for_saving, map_fin_nanToNum, safe_peak_map_fin]
      norm_num [maxAbsQ]
    · rw [safe_peak_map_fin]
      norm_num [maxAbsQ]
  · by_cases hp : safe_peak ((x.map nanToNum).map FV.fin) < 1 / 1000000
    · have hz : normalize_for_saving x (49/50) = x.map nanToNum := by
        simp only [normalize_for_saving, if_neg hx, if_pos hp]
      rw [hz]
      have hlen2 : ¬ ((x.map nanToNum).map FV.fin).length = 0 := by
        simpa using hx
      constructor
      · simp only [normalize_for_saving, if_neg hlen2, map_fin_nanToNum, if_pos hp]
      · rw [safe_peak_map_fin] at hp ⊢
        exact le_of_lt (lt_trans hp (by norm_num))
    · obtain ⟨-, hpk⟩ := normalize_main_case x hx hp
      have hne : normalize_for_saving x (49/50) ≠ [] := by
        intro hnil
        rw [hnil] at hpk
        norm_num [maxAbsQ] at hpk
      constructor
      · exact normalize_second _ hne hpk
      · rw [safe_peak_map_fin, hpk]

theorem fvMaxNp_fin (a b : ℚ) : fvMaxNp (FV.fin a) (FV.fin b) = FV.fin (max a b) := by
  have hnot : ¬ (FV.fin a = FV.nan ∨ FV.fin b = FV.nan) := by simp
  rw [fvMaxNp, if_neg hnot]
  by_cases h : a < b
  · simp [fvLt, h, max_eq_right (le_of_lt h)]
  · simp [fvLt, h, max_eq_left (le_of_not_lt h)]

theorem foldl_fvMaxNp_fin (as : List ℚ) : ∀ a : ℚ,
    (as.map FV.fin).foldl fvMaxNp (FV.fin a) = FV.fin (as.foldl max a) := by
  induction as with
  | nil => intro a; rfl
  | cons b bs ih =>
      intro a
      simp only [List.map_cons, List.foldl_cons, fvMaxNp_fin]
      exact ih (max a b)

theorem maxAbsQ_cons (a : ℚ) (l : List ℚ) : maxAbsQ (a :: l) = max |a| (maxAbsQ l) := rfl

theorem foldl_max_abs (as : List ℚ) : ∀ c : ℚ, 0 ≤ c →
    (as.map (fun v => |v|)).foldl max c = max c (maxAbsQ as) := by
  induction as with
  | nil => intro c hc; simp [maxAbsQ, max_eq_left hc]
  | cons b bs ih =>
      intro c hc
      simp only [List.map_cons, List.foldl_cons]
      rw [ih (max c |b|) (le_trans hc (le_max_left _ _)), maxAbsQ_cons, max_assoc]

theorem map_fvAbs_fin (l : List ℚ) :
    (l.map FV.fin).map fvAbs = (l.map (fun v => |v|)).map FV.fin := by
  simp [List.map_map, Function.comp, fvAbs]

theorem npMaxAbs_map_fin {qs : List ℚ} (h : qs ≠ []) :
    npMaxAbs (qs.map FV.fin) = FV.fin (maxAbsQ qs) := by
  cases qs with
  | nil => exact absurd rfl h
  | cons a as =>
      show npMax ((FV.fin a :: as.map FV.fin).map fvAbs) = _
      simp only [List.map_cons]
      have hmap : (as.map FV.fin).map fvAbs = ((as.map (fun v => |v|)).map FV.fin) :=
        map_fvAbs_fin as
      show npMax (fvAbs (FV.fin a) :: (as.map FV.fin).map fvAbs) = _
      rw [hmap]
      show ((as.map (fun v => |v|)).map FV.fin).foldl fvMaxNp (FV.fin |a|) = _
      rw [show (as.map fun v => |v|).map FV.fin = ((as.map fun v => |v|)).map FV.fin from rfl]
      rw [foldl_fvMaxNp_fin (as.map fun v => |v|) |a|]
      rw [show (as.map fun v => |v|).foldl max |a| = max |a| (maxAbsQ as) from by
        simpa using foldl_max_abs as |a| (abs_nonneg a)]
      rfl

theorem fvGt_fin (a b : ℚ) : fvGt (FV.fin a) (FV.fin b) = decide (b < a) := rfl

theorem fvDiv_fin {b : ℚ} (a : ℚ) (hb : b ≠ 0) :
    fvDiv (FV.fin a) (FV.fin b) = FV.fin (a / b) := by
  simp [fvDiv, hb]

theorem map_fvDiv_fin (qs : List ℚ) {c : ℚ} (hc : c ≠ 0) :
    (qs.map FV.fin).map (fun v => fvDiv v (FV.fin c))
      = (qs.map (fun v => v / c)).map FV.fin := by
  simp only [List.map_map]
  apply List.map_congr_left
  intro a _
  simp [Function.comp, fvDiv_fin a hc]

theorem peakOf_map_fin (qs : List ℚ) : peakOf (qs.map FV.fin) = FV.fin (maxAbsQ qs) := by
  cases qs with
  | nil => simp [peakOf, maxAbsQ]
  | cons a as =>
      have h : ((a :: as).map FV.fin).length ≠ 0 := by simp
      rw [peakOf, if_pos h, npMaxAbs_map_fin (List.cons_ne_nil a as)]

theorem stage1_map_fin (qs : List ℚ) :
    stage1 (qs.map FV.fin) = (stage1Q qs).map FV.fin := by
  rw [stage1, stage1Q, peakOf_map_fin, fvGt_fin]
  by_cases h : (3:ℚ)/2 < maxAbsQ qs
  · rw [if_pos (decide_eq_true h), if_pos h,
      map_fvDiv_fin qs (by norm_num : (32768:ℚ) ≠ 0)]
  · rw [if_neg (by simpa using h), if_neg h]

theorem stage2_map_fin (qs : List ℚ) :
    stage2 (qs.map FV.fin) = (stage2Q qs).map FV.fin := by
  rw [stage2, stage2Q, peakOf_map_fin, fvGt_fin]
  by_cases h : (1:ℚ) < maxAbsQ qs
  · rw [if_pos (decide_eq_true h), if_pos h,
      map_fvDiv_fin qs (ne_of_gt (lt_trans one_pos h))]
  · rw [if_neg (by simpa using h), if_neg h]

/-- On an all-finite buffer, float-level range auto-detection agrees with
the exact rational computation. -/
theorem rangeAutoDetect_map_fin (qs : List ℚ) :
    rangeAutoDetect (qs.map FV.fin) = (rangeAutoDetectQ qs).map FV.fin := by
  rw [rangeAutoDetect, rangeAutoDetectQ, stage1_map_fin, stage2_map_fin]

/-- After range auto-detection, the absolute peak of an all-finite buffer
is at most `1`. -/
theorem maxAbsQ_rangeAutoDetectQ_le_one (qs : List ℚ) :
    maxAbsQ (rangeAutoDetectQ qs) ≤ 1 := by
  rw [rangeAutoDetectQ, stage2Q]
  by_cases h : 1 < maxAbsQ (stage1Q qs)
  · rw [if_pos h, maxAbsQ_map_div _ _ (lt_trans one_pos h),
      div_self (ne_of_gt (lt_trans one_pos h))]
  · rw [if_neg h]; exact le_of_not_lt h

theorem length_stage1Q (qs : List ℚ) : (stage1Q qs).length = qs.length := by
  rw [stage1Q]; split_ifs <;> simp

theorem length_stage2Q (qs : List ℚ) : (stage2Q qs).length = qs.length := by
  rw [stage2Q]; split_ifs <;> simp

theorem length_rangeAutoDetectQ (qs : List ℚ) :
    (rangeAutoDetectQ qs).length = qs.length := by
  rw [rangeAutoDetectQ, length_stage2Q, length_stage1Q]

theorem maxAbsQ_eq_zero_of_nil {qs : List ℚ} (h : qs = []) : maxAbsQ qs = 0 := by
  rw [h]; rfl

theorem rangeAutoDetectQ_nil : rangeAutoDetectQ [] = [] := by
  have h0 : maxAbsQ ([] : List ℚ) = 0 := rfl
  have h1 : stage1Q [] = [] := by rw [stage1Q, h0]; norm_num
  rw [rangeAutoDetectQ, h1, stage2Q, h0]
  norm_num

theorem fvSum_map_fin (l : List ℚ) : fvSum (l.map FV.fin) = FV.fin l.sum := by
  have aux : ∀ (l : List ℚ) (a : ℚ),
      (l.map FV.fin).foldl fvAdd (FV.fin a) = FV.fin (a + l.sum) := by
    intro l
    induction l with
    | nil => intro a; simp [List.sum_nil]
    | cons b bs ih =>
        intro a
        simp only [List.map_cons, List.foldl_cons]
        show (bs.map FV.fin).foldl fvAdd (FV.fin (a + b)) = _
        rw [ih (a + b), List.sum_cons]
        ring_nf
  simpa using aux l 0

theorem map_fvMulSelf_fin (l : List ℚ) :
    (l.map FV.fin).map (fun v => fvMul v v) = (l.map (fun a => a * a)).map FV.fin := by
  simp [List.map_map, Function.comp, fvMul]

theorem countP_clip_map_fin (l : List ℚ) (cl : ℚ) :
    (l.map FV.fin).countP (fun v => fvGt (fvAbs v) (FV.fin cl))
      = l.countP (fun a => decide (cl < |a|)) := by
  rw [List.countP_map]
  rfl

theorem countP_silence_map_fin (l : List ℚ) (st : ℚ) :
    (l.map FV.fin).countP (fun v => fvLt (fvAbs v) (FV.fin st))
      = l.countP (fun a => decide (|a| < st)) := by
  rw [List.countP_map]
  rfl

/-- On an all-finite buffer the float-level metrics computation reduces
to the exact rational one. -/
theorem metricsOf_map_fin (qs : List ℚ) (cl st : ℚ) :
    metricsOf (qs.map FV.fin) cl st =
      ⟨FV.fin (maxAbsQ (rangeAutoDetectQ qs)), FV.fin (meanSqQ qs),
        clipRatioQ qs cl, silenceRatioQ qs st, ! decide (0 < meanSqQ qs)⟩ := by
  have hlen : (rangeAutoDetect (qs.map FV.fin)).length = qs.length := by
    rw [rangeAutoDetect_map_fin, List.length_map, length_rangeAutoDetectQ]
  by_cases h0 : qs.length = 0
  · have hnil : qs = [] := List.length_eq_zero.mp h0
    subst hnil
    have hx : rangeAutoDetect (([] : List ℚ).map FV.fin) = [] := by
      rw [rangeAutoDetect_map_fin, rangeAutoDetectQ_nil]; rfl
    simp only [metricsOf, hx, meanSqQ, clipRatioQ, silenceRatioQ, rangeAutoDetectQ_nil]
    norm_num [peakOf, maxAbsQ, rmsSqPos]
  · have hxne : rangeAutoDetectQ qs ≠ [] := by
      intro hc
      exact h0 (by rw [← length_rangeAutoDetectQ, hc]; rfl)
    have hne : (rangeAutoDetect (qs.map FV.fin)).length ≠ 0 := by
      rw [hlen]; exact h0
    simp only [metricsOf, rangeAutoDetect_map_fin, peakOf_map_fin,
      List.length_map, length_rangeAutoDetectQ, meanSqQ, clipRatioQ, silenceRatioQ,
      if_neg h0, if_pos h0, ne_eq, not_false_iff, if_pos, map_fvMulSelf_fin,
      fvSum_map_fin, countP_clip_map_fin, countP_silence_map_fin]
    have hcast : ((qs.length : ℚ)) ≠ 0 := by
      exact_mod_cast h0
    rw [fvDiv_fin _ hcast]
    rfl

theorem meanSqQ_nonneg (qs : List ℚ) : 0 ≤ meanSqQ qs := by
  rw [meanSqQ]
  split_ifs with h
  · exact le_refl 0
  · refine div_nonneg (List.sum_nonneg ?_) (Nat.cast_nonneg _)
    intro a ha
    obtain ⟨v, -, rfl⟩ := List.mem_map.mp ha
    exact mul_self_nonneg v

theorem clipRatioQ_bounds (qs : List ℚ) (cl : ℚ) :
    0 ≤ clipRatioQ qs cl ∧ clipRatioQ qs cl ≤ 1 := by
  rw [clipRatioQ]
  split_ifs with h
  · norm_num
  · have hpos : (0:ℚ) < (qs.length : ℚ) := by
      exact_mod_cast Nat.pos_of_ne_zero h
    constructor
    · exact div_nonneg (Nat.cast_nonneg _) (le_of_lt hpos)
    · rw [div_le_one hpos]
      have hle := List.countP_le_length
        (p := fun v => decide (cl < |v|)) (l := rangeAutoDetectQ qs)
      rw [length_rangeAutoDetectQ] at hle
      exact_mod_cast hle

theorem silenceRatioQ_bounds (qs : List ℚ) (st : ℚ) :
    0 ≤ silenceRatioQ qs st ∧ silenceRatioQ qs st ≤ 1 := by
  rw [silenceRatioQ]
  split_ifs with h
  · norm_num
  · have hpos : (0:ℚ) < (qs.length : ℚ) := by
      exact_mod_cast Nat.pos_of_ne_zero h
    constructor
    · exact div_nonneg (Nat.cast_nonneg _) (le_of_lt hpos)
    · rw [div_le_one hpos]
      have hle := List.countP_le_length
        (p := fun v => decide (|v| < st)) (l := rangeAutoDetectQ qs)
      rw [length_rangeAutoDetectQ] at hle
      exact_mod_cast hle

theorem countP_replicate {α : Type} (p : α → Bool) (n : ℕ) (a : α) :
    (List.replicate n a).countP p = if p a then n else 0 := by
  induction n with
  | zero => simp
  | succ n ih =>
      rw [List.replicate_succ, List.countP_cons, ih]
      split_ifs <;> omega

theorem maxAbsQ_replicate_zero (n : ℕ) : maxAbsQ (List.replicate n (0:ℚ)) = 0 := by
  induction n with
  | zero => rfl
  | succ n ih => rw [List.replicate_succ, maxAbsQ_cons, ih]; simp

theorem rangeAutoDetectQ_replicate_zero (n : ℕ) :
    rangeAutoDetectQ (List.replicate n (0:ℚ)) = List.replicate n 0 := by
  have h1 : stage1Q (List.replicate n (0:ℚ)) = List.replicate n 0 := by
    rw [stage1Q, maxAbsQ_replicate_zero, if_neg (by norm_num)]
  rw [rangeAutoDetectQ, h1, stage2Q, maxAbsQ_replicate_zero, if_neg (by norm_num)]

/-- C2 (amended).  On all-finite buffers the metrics of
`on_audio_change` are finite and non-NaN: the peak is a rational in
`[0, 1]`, the mean square (hence `rms`) is a finite nonnegative rational,
the squared `log10` argument of `dbfs` is a positive rational (so `dbfs`
is a finite real), both ratios lie in `[0, 1]`, and the crest factor is
the `math.inf` sentinel only when the mean square (hence `rms`) is `0`.
For the all-zero buffer of 16000 samples the metrics are
`rms = 0` (`rmsSq = 0`), `dbfs = 20*log10(1e-12)` (`dbfsArgSq = 1e-24`),
`clip_ratio = 0`, `silence_ratio = 1`, for any clip level `≥ 0` and any
positive silence threshold.  (NaN/Inf samples are NOT replaced with
`0` on this path — see the counterexample `metricsOf_nan_cex`.) -/
theorem metricsOf_finite_sound :
    (∀ (qs : List ℚ) (cl st : ℚ),
      (∃ p : ℚ, (metricsOf (qs.map FV.fin) cl st).peak = FV.fin p ∧ 0 ≤ p ∧ p ≤ 1) ∧
      (∃ r : ℚ, (metricsOf (qs.map FV.fin) cl st).rmsSq = FV.fin r ∧ 0 ≤ r) ∧
      (∃ d : ℚ, (metricsOf (qs.map FV.fin) cl st).dbfsArgSq = FV.fin d ∧ 0 < d) ∧
      0 ≤ (metricsOf (qs.map FV.fin) cl st).clip_ratio ∧
      (metricsOf (qs.map FV.fin) cl st).clip_ratio ≤ 1 ∧
      0 ≤ (metricsOf (qs.map FV.fin) cl st).silence_ratio ∧
      (metricsOf (qs.map FV.fin) cl st).silence_ratio ≤ 1 ∧
      ((metricsOf (qs.map FV.fin) cl st).crestIsInf = true →
        (metricsOf (qs.map FV.fin) cl st).rmsSq = FV.fin 0)) ∧
    (∀ cl st : ℚ, 0 ≤ cl → 0 < st →
      metricsOf (List.replicate 16000 (FV.fin 0)) cl st
          = ⟨FV.fin 0, FV.fin 0, 0, 1, true⟩ ∧
      (metricsOf (List.replicate 16000 (FV.fin 0)) cl st).dbfsArgSq
          = FV.fin (1 / 10 ^ 24)) := by
  constructor
  · intro qs cl st
    have hm := metricsOf_map_fin qs cl st
    have hpeak : (metricsOf (qs.map FV.fin) cl st).peak
        = FV.fin (maxAbsQ (rangeAutoDetectQ qs)) := by rw [hm]
    have hrms : (metricsOf (qs.map FV.fin) cl st).rmsSq = FV.fin (meanSqQ qs) := by rw [hm]
    have hclip : (metricsOf (qs.map FV.fin) cl st).clip_ratio = clipRatioQ qs cl := by rw [hm]
    have hsil : (metricsOf (qs.map FV.fin) cl st).silence_ratio = silenceRatioQ qs st := by
      rw [hm]
    have hcrest : (metricsOf (qs.map FV.fin) cl st).crestIsInf
        = ! decide (0 < meanSqQ qs) := by rw [hm]
    refine ⟨⟨_, hpeak, maxAbsQ_nonneg _, maxAbsQ_rangeAutoDetectQ_le_one qs⟩,
      ⟨_, hrms, meanSqQ_nonneg qs⟩, ?_, ?_, ?_, ?_, ?_, ?_⟩
    · have hd : (metricsOf (qs.map FV.fin) cl st).dbfsArgSq
          = pyMaxFV (FV.fin (meanSqQ qs)) (FV.fin (1 / 10 ^ 24)) := by
        rw [SignalMetrics.dbfsArgSq, hrms]
      by_cases hlt : meanSqQ qs < 1 / 10 ^ 24
      · refine ⟨1 / 10 ^ 24, ?_, by norm_num⟩
        rw [hd, pyMaxFV, fvGt_fin, if_pos (decide_eq_true hlt)]
      · refine ⟨meanSqQ qs, ?_, lt_of_lt_of_le (by norm_num) (le_of_not_lt hlt)⟩
        rw [hd, pyMaxFV, fvGt_fin, if_neg (by simpa using hlt)]
    · rw [hclip]; exact (clipRatioQ_bounds qs cl).1
    · rw [hclip]; exact (clipRatioQ_bounds qs cl).2
    · rw [hsil]; exact (silenceRatioQ_bounds qs st).1
    · rw [hsil]; exact (silenceRatioQ_bounds qs st).2
    · intro hc
      rw [hcrest] at hc
      have h0 : ¬ 0 < meanSqQ qs := by
        intro hpos
        rw [decide_eq_true hpos] at hc
        simp at hc
      rw [hrms, le_antisymm (le_of_not_lt h0) (meanSqQ_nonneg qs)]
  · intro cl st hcl hst
    have hrep : List.replicate 16000 (FV.fin 0) = (List.replicate 16000 (0:ℚ)).map FV.fin := by
      rw [List.map_replicate]
    have hlen : (List.replicate 16000 (0:ℚ)).length = 16000 := List.length_replicate 16000 0
    have hlen0 : ¬ (List.replicate 16000 (0:ℚ)).length = 0 := by
      rw [hlen]; norm_num
    have hmean : meanSqQ (List.replicate 16000 (0:ℚ)) = 0 := by
      rw [meanSqQ, if_neg hlen0, rangeAutoDetectQ_replicate_zero,
        List.map_replicate]
      norm_num
    have hclip : clipRatioQ (List.replicate 16000 (0:ℚ)) cl = 0 := by
      rw [clipRatioQ, if_neg hlen0, rangeAutoDetectQ_replicate_zero,
        countP_replicate]
      rw [if_neg (by simpa using not_lt.mpr hcl)]
      norm_num
    have hsil : silenceRatioQ (List.replicate 16000 (0:ℚ)) st = 1 := by
      rw [silenceRatioQ, if_neg hlen0, rangeAutoDetectQ_replicate_zero,
        countP_replicate]
      rw [if_pos (by simpa using hst)]
      rw [hlen]
      norm_num
    have hrec : metricsOf (List.replicate 16000 (FV.fin 0)) cl st
        = ⟨FV.fin 0, FV.fin 0, 0, 1, true⟩ := by
      rw [hrep, metricsOf_map_fin, rangeAutoDetectQ_replicate_zero,
        maxAbsQ_replicate_zero, hmean, hclip, hsil]
      norm_num
    refine ⟨hrec, ?_⟩
    rw [SignalMetrics.dbfsArgSq, hrec]
    show pyMaxFV (FV.fin 0) (FV.fin (1 / 10 ^ 24)) = _
    rw [pyMaxFV, fvGt_fin, if_pos (decide_eq_true (by norm_num : (0:ℚ) < 1 / 10 ^ 24))]

/-- Witness for `metricsOf_finite_sound`: the all-zero 16000-sample
scenario at clip level `0.98` and silence threshold `0.01`, and the crest
implication applied at the one-sample buffer `[0]`. -/
theorem metricsOf_finite_sound_witness :
    metricsOf (List.replicate 16000 (FV.fin 0)) (49/50) (1/100)
        = ⟨FV.fin 0, FV.fin 0, 0, 1, true⟩ ∧
    (metricsOf ([(0:ℚ)].map FV.fin) 1 1).rmsSq = FV.fin 0 := by
  constructor
  · exact ((metricsOf_finite_sound.2) (49/50) (1/100) (by norm_num) (by norm_num)).1
  · refine ((metricsOf_finite_sound.1 [0] 1 1).2.2.2.2.2.2.2) ?_
    rw [metricsOf_map_fin]
    have h : meanSqQ [(0:ℚ)] = 0 := by
      have h1 : rangeAutoDetectQ [(0:ℚ)] = [0] := by
        have hm : maxAbsQ [(0:ℚ)] = 0 := by norm_num [maxAbsQ_cons, maxAbsQ]
        have hs1 : stage1Q [(0:ℚ)] = [0] := by
          rw [stage1Q, hm, if_neg (by norm_num)]
        rw [rangeAutoDetectQ, hs1, stage2Q, hm, if_neg (by norm_num)]
      rw [meanSqQ, if_neg (by simp), h1]
      norm_num
    rw [h]
    norm_num

/-- C2 counterexample: a buffer containing a NaN sample is NOT replaced
with `0` on the analysis path; the NaN propagates into the metrics:
`peak` and `rmsSq` (hence `rms` and `dbfs`) come out NaN, and the crest
factor is the `math.inf` sentinel even though `rms` is NaN, not `0`. -/
theorem metricsOf_nan_cex :
    (metricsOf [FV.nan] (49/50) (1/100)).peak = FV.nan ∧
    (metricsOf [FV.nan] (49/50) (1/100)).rmsSq = FV.nan ∧
    (metricsOf [FV.nan] (49/50) (1/100)).crestIsInf = true := ⟨rfl, rfl, rfl⟩

/-- C6 (amended).  Range auto-detection (divide by `32768` when the raw
peak exceeds `1.5`, then rescale by the remaining peak when it still
exceeds `1.0`) leaves every all-finite buffer with absolute peak at most
`1.0`; in particular the buffer `[1.2]` comes out as `[1.0]`.  (A buffer
containing NaN/Inf is passed through un-normalized — see
`rangeAutoDetect_nan_cex`.) -/
theorem rangeAutoDetect_result_peak :
    (∀ qs : List ℚ,
        rangeAutoDetect (qs.map FV.fin) = (rangeAutoDetectQ qs).map FV.fin ∧
        maxAbsQ (rangeAutoDetectQ qs) ≤ 1) ∧
      rangeAutoDetectQ [6/5] = [1] := by
  refine ⟨fun qs => ⟨rangeAutoDetect_map_fin qs, maxAbsQ_rangeAutoDetectQ_le_one qs⟩, ?_⟩
  have habs : |(6:ℚ)/5| = 6/5 := abs_of_pos (by norm_num)
  have hmax : maxAbsQ [(6:ℚ)/5] = 6/5 := by
    rw [maxAbsQ_cons, habs]
    norm_num [maxAbsQ]
  have hs1 : stage1Q [(6:ℚ)/5] = [6/5] := by
    rw [stage1Q, hmax, if_neg (by norm_num)]
  rw [rangeAutoDetectQ, hs1, stage2Q, hmax, if_pos (by norm_num)]
  norm_num

/-- C6 counterexample: the claim quantifies over every input buffer, but
a buffer whose sole sample is NaN is left untouched by range
auto-detection (every comparison against NaN is false), so the resulting
absolute peak is NaN — which is not `≤ 1.0` under float comparison. -/
theorem rangeAutoDetect_nan_cex :
    rangeAutoDetect [FV.nan] = [FV.nan] ∧
    fvLe (npMaxAbs (rangeAutoDetect [FV.nan])) (FV.fin 1) = false := ⟨rfl, rfl⟩

theorem contributes_iff (L i : ℕ) :
    contributes L i = true ↔ ∃ f, f < nFrames L ∧ 512 * f ≤ i ∧ i < 512 * f + 1024 := by
  rw [contributes, List.any_eq_true]
  constructor
  · rintro ⟨f, hf, hp⟩
    rw [List.mem_range] at hf
    rcases Bool.and_eq_true_iff.mp hp with ⟨h1, h2⟩
    exact ⟨f, hf, of_decide_eq_true h1, of_decide_eq_true h2⟩
  · rintro ⟨f, hf, h1, h2⟩
    exact ⟨f, List.mem_range.mpr hf,
      Bool.and_eq_true_iff.mpr ⟨decide_eq_true h1, decide_eq_true h2⟩⟩

theorem length_frameAt (x : List ℚ) (i : ℕ) : (frameAt x i).length = 1024 := by
  have h : ((x.drop (i * 512)).take 1024).length ≤ 1024 := by
    simp [List.length_take]
  simp only [frameAt, List.length_append, List.length_replicate]
  omega

/-- C3 (amended).  The spectrogram framing uses window length `1024`,
hop `512`, and restricts to the first 10 seconds.  Every frame has
length exactly `1024`; when the input is shorter than one window the
single frame is the input zero-padded (rather than dropped); a sample
lands in some frame iff its index is below `512*(n_frames-1)+1024`, and
a frame really carries the sample values at the expected offsets.
Consequently every sample of the capped buffer contributes to some frame
iff `L ≤ 1024` or `512 ∣ (L - 1024)`; otherwise the trailing
`(L-1024) mod 512` samples are dropped (see `frames_drop_tail_cex`). -/
theorem spectrogram_framing :
    (∀ (x : List ℚ) (sr : ℕ), (capTenSeconds x sr).length = min x.length (sr * 10)) ∧
    (∀ (x : List ℚ) (i : ℕ), (frameAt x i).length = 1024) ∧
    (∀ x : List ℚ, (framesOf x).length = nFrames x.length) ∧
    (∀ x : List ℚ, x.length ≤ 1024 →
      frameAt x 0 = x ++ List.replicate (1024 - x.length) 0) ∧
    (∀ (x : List ℚ) (f i : ℕ), 512 * f ≤ i → i < 512 * f + 1024 → i < x.length →
      (frameAt x f)[i - 512 * f]? = x[i]?) ∧
    (∀ L i : ℕ, i < L →
      (contributes L i = true ↔ i < 512 * (nFrames L - 1) + 1024)) ∧
    (∀ L : ℕ, L ≤ 1024 ∨ 512 ∣ (L - 1024) →
      ∀ i : ℕ, i < L → contributes L i = true) := by
  have hcap : ∀ (x : List ℚ) (sr : ℕ),
      (capTenSeconds x sr).length = min x.length (sr * 10) := by
    intro x sr
    rw [capTenSeconds]
    split_ifs with h
    · simp [List.length_take]
      omega
    · omega
  have hcov : ∀ L i : ℕ, i < L →
      (contributes L i = true ↔ i < 512 * (nFrames L - 1) + 1024) := by
    intro L i hi
    rw [contributes_iff]
    constructor
    · rintro ⟨f, hf, h1, h2⟩
      have : f ≤ nFrames L - 1 := by omega
      omega
    · intro hb
      have hq := Nat.div_add_mod i 512
      have hr : i % 512 < 512 := Nat.mod_lt i (by norm_num)
      have hn1 : 1 ≤ nFrames L := by rw [nFrames]; omega
      by_cases hc : i / 512 ≤ nFrames L - 1
      · exact ⟨i / 512, by omega, by omega, by omega⟩
      · exact ⟨nFrames L - 1, by omega, by omega, by omega⟩
  refine ⟨hcap, length_frameAt, fun x => by simp [framesOf], ?_, ?_, hcov, ?_⟩
  · intro x hx
    rw [frameAt]
    have h0 : x.drop (0 * 512) = x := by simp
    rw [h0, List.take_of_length_le hx]
  · intro x f i h1 h2 h3
    have hj1 : i - 512 * f < 1024 := by omega
    have hj2 : i - 512 * f < ((x.drop (f * 512)).take 1024).length := by
      simp only [List.length_take, List.length_drop]
      omega
    rw [frameAt]
    show (((x.drop (f * 512)).take 1024) ++ _)[i - 512 * f]? = _
    rw [List.getElem?_append, if_pos hj2, List.getElem?_take_of_lt hj1,
      List.getElem?_drop]
    congr 1
    omega
  · intro L hL i hi
    rw [hcov L i hi]
    rcases hL with h | ⟨k, hk⟩
    · have : nFrames L = 1 := by rw [nFrames]; omega
      omega
    · rw [nFrames]
      omega

/-- Witness for `spectrogram_framing`: a short buffer is zero-padded to
one full window; with `L = 2048` (where `512 ∣ L - 1024`) the last
sample index `2047` contributes; frame `0` holds sample `3` of a
4-sample buffer at offset `3`. -/
theorem spectrogram_framing_witness :
    frameAt [(5:ℚ)] 0 = [(5:ℚ)] ++ List.replicate 1023 0 ∧
    contributes 2048 2047 = true ∧
    (frameAt [(1:ℚ), 2, 3, 4] 0)[3]? = some 4 := by
  refine ⟨?_, ?_, ?_⟩
  · have h := spectrogram_framing.2.2.2.1 [(5:ℚ)] (by norm_num)
    rw [h, show [(5:ℚ)].length = 1 from rfl]
  · exact spectrogram_framing.2.2.2.2.2.2 2048 (Or.inr ⟨2, by norm_num⟩) 2047 (by norm_num)
  · have h := spectrogram_framing.2.2.2.2.1 [(1:ℚ), 2, 3, 4] 0 3
      (by norm_num) (by norm_num) (by norm_num)
    rw [show 3 - 512 * 0 = 3 from rfl] at h
    rw [h]
    rfl

/-- C3 counterexample: a 1025-sample buffer (well inside the first 10
seconds at 16 kHz) yields a single 1024-sample frame — `n_frames = 1 +
(1025-1024)//512 = 1` — so its last sample (index 1024) lies in no
analysis frame: the partial tail is dropped, not padded. -/
theorem frames_drop_tail_cex :
    capTenSeconds (List.replicate 1025 (1:ℚ)) 16000 = List.replicate 1025 1 ∧
    nFrames 1025 = 1 ∧
    contributes 1025 1024 = false := by
  refine ⟨?_, by decide, by decide⟩
  rw [capTenSeconds, if_neg (by rw [List.length_replicate]; norm_num)]

theorem length_rfftfreq (sr : ℕ) : (rfftfreq 1024 sr).length = 513 := by
  rw [rfftfreq, List.length_map, List.length_range]

/-- The three band masks partition every frequency, so the three filtered
sums of any zipped frame add up to the frame's full sum. -/
theorem filter_bands_sum (l : List (ℚ × ℚ)) :
    ((l.filter (fun pm => pLow pm.1)).map (fun pm => pm.2)).sum
      + ((l.filter (fun pm => pMid pm.1)).map (fun pm => pm.2)).sum
      + ((l.filter (fun pm => pHigh pm.1)).map (fun pm => pm.2)).sum
      = (l.map (fun pm => pm.2)).sum := by
  induction l with
  | nil => simp
  | cons a l ih =>
      by_cases h1 : a.1 < 300
      · have hl : pLow a.1 = true := by simp [pLow, h1]
        have hm : pMid a.1 = false := by simp [pMid, not_le.mpr h1]
        have hh : pHigh a.1 = false := by
          simp [pHigh, not_le.mpr (lt_trans h1 (by norm_num : (300:ℚ) < 3000))]
        simp [List.filter_cons, hl, hm, hh]
        linarith [ih]
      · by_cases h2 : a.1 < 3000
        · have hl : pLow a.1 = false := by simp [pLow, h1]
          have hm : pMid a.1 = true := by simp [pMid, le_of_not_lt h1, h2]
          have hh : pHigh a.1 = false := by simp [pHigh, not_le.mpr h2]
          simp [List.filter_cons, hl, hm, hh]
          linarith [ih]
        · have hl : pLow a.1 = false := by
            simp [pLow, not_lt.mpr (le_trans (by norm_num : (300:ℚ) ≤ 3000) (le_of_not_lt h2))]
          have hm : pMid a.1 = false := by simp [pMid, h2]
          have hh : pHigh a.1 = true := by simp [pHigh, le_of_not_lt h2]
          simp [List.filter_cons, hl, hm, hh]
          linarith [ih]

/-- Over frames whose magnitude rows match the frequency axis, the three
band sums partition the total magnitude. -/
theorem bandSum_partition (freqs : List ℚ) (mags : List (List ℚ))
    (h : ∀ fr ∈ mags, fr.length = freqs.length) :
    bandSum pLow freqs mags + bandSum pMid freqs mags + bandSum pHigh freqs mags
      = totalMag mags := by
  induction mags with
  | nil => simp [bandSum, totalMag]
  | cons fr frs ih =>
      have hfr : fr.length = freqs.length := h fr (List.mem_cons_self fr frs)
      have hrest := ih (fun fr' hfr' => h fr' (List.mem_cons_of_mem fr hfr'))
      simp only [bandSum, totalMag, List.map_cons, List.sum_cons] at *
      have hzip : (freqs.zip fr).map (fun pm => pm.2) = fr :=
        List.map_snd_zip freqs fr (le_of_eq hfr)
      have hfull := filter_bands_sum (freqs.zip fr)
      rw [hzip] at hfull
      linarith

/-- Common core for C4: on nonempty input with positive sample rate and
an admissible magnitude layer, the three ratios sum to `S/(S + 1e-12)`
where `S` is the total magnitude. -/
theorem ratio_sum_formula (mag : List ℚ → List ℚ)
    (hlen : ∀ fr, fr.length = 1024 → (mag fr).length = 513)
    (x : List ℚ) (sr : ℕ) (hx : x.length ≠ 0) (hsr : sr ≠ 0) :
    (analyzeSpectrumForComment mag x sr).ratio_low
      + (analyzeSpectrumForComment mag x sr).ratio_mid
      + (analyzeSpectrumForComment mag x sr).ratio_high
      = totalMag ((framesOf (capTenSeconds x sr)).map mag)
        / (totalMag ((framesOf (capTenSeconds x sr)).map mag) + 1 / 10 ^ 12) := by
  have hguard : ¬ (x.length = 0 ∨ sr = 0) := by
    rintro (h | h)
    · exact hx h
    · exact hsr h
  simp only [analyzeSpectrumForComment, if_neg hguard]
  rw [div_add_div_same, div_add_div_same, bandSum_partition]
  intro fr hfr
  obtain ⟨fr0, hfr0, rfl⟩ := List.mem_map.mp hfr
  obtain ⟨i, -, rfl⟩ := List.mem_map.mp hfr0
  rw [hlen _ (length_frameAt _ _), length_rfftfreq]

theorem totalMag_nonneg (mags : List (List ℚ))
    (hnn : ∀ fr ∈ mags, ∀ v ∈ fr, 0 ≤ v) : 0 ≤ totalMag mags := by
  refine List.sum_nonneg ?_
  intro s hs
  obtain ⟨fr, hfr, rfl⟩ := List.mem_map.mp hs
  exact List.sum_nonneg (hnn fr hfr)

/-- C4 (amended).  For an admissible magnitude layer (513 nonnegative
bins per frame), nonempty input and positive sample rate, the three band
ratios of `analyze_spectrum_for_comment` sum to `S/(S + 1e-12)` with `S`
the total summed magnitude: the sum is strictly below `1`, and it is
within `1e-3` of `1` whenever `S ≥ 1e-9`.  The claim's original "any
non-silent input" is not sufficient: a tiny non-silent input makes `S`
arbitrarily small and the ratio sum arbitrarily close to `0` (see
`bandRatioClaim_false`). -/
theorem bandRatios_sum (mag : List ℚ → List ℚ) (x : List ℚ) (sr : ℕ)
    (hlen : ∀ fr, fr.length = 1024 → (mag fr).length = 513)
    (hnn : ∀ fr ∈ (framesOf (capTenSeconds x sr)).map mag, ∀ v ∈ fr, 0 ≤ v)
    (hx : x.length ≠ 0) (hsr : sr ≠ 0) :
    (analyzeSpectrumForComment mag x sr).ratio_low
        + (analyzeSpectrumForComment mag x sr).ratio_mid
        + (analyzeSpectrumForComment mag x sr).ratio_high
      = totalMag ((framesOf (capTenSeconds x sr)).map mag)
        / (totalMag ((framesOf (capTenSeconds x sr)).map mag) + 1 / 10 ^ 12) ∧
    (analyzeSpectrumForComment mag x sr).ratio_low
        + (analyzeSpectrumForComment mag x sr).ratio_mid
        + (analyzeSpectrumForComment mag x sr).ratio_high < 1 ∧
    (1 / 10 ^ 9 ≤ totalMag ((framesOf (capTenSeconds x sr)).map mag) →
      |(analyzeSpectrumForComment mag x sr).ratio_low
          + (analyzeSpectrumForComment mag x sr).ratio_mid
          + (analyzeSpectrumForComment mag x sr).ratio_high - 1| ≤ 1 / 10 ^ 3) := by
  have hform := ratio_sum_formula mag hlen x sr hx hsr
  have hS := totalMag_nonneg _ hnn
  set S := totalMag ((framesOf (capTenSeconds x sr)).map mag) with hSdef
  have hT : (0:ℚ) < S + 1 / 10 ^ 12 := by positivity
  refine ⟨hform, ?_, ?_⟩
  · rw [hform, div_lt_one hT]
    norm_num
  · intro hlb
    rw [hform]
    have h1 : S / (S + 1 / 10 ^ 12) - 1 = -(1 / 10 ^ 12) / (S + 1 / 10 ^ 12) := by
      field_simp
    rw [h1, abs_div, abs_neg, abs_of_pos (by norm_num : (0:ℚ) < 1 / 10 ^ 12),
      abs_of_pos hT, div_le_iff₀ hT]
    nlinarith

/-- C4 counterexample: the claim fails for the non-silent input
`[1e-15]` at 16 kHz.  Positive homogeneity makes the total magnitude
scale linearly with the input, so a tiny non-silent buffer drives the
total `S` far below `1e-12` and the ratio sum `S/(S+1e-12)` towards `0`
— here the concrete admissible magnitude layer gives a ratio sum of
`513/1513 ≈ 0.34`, off from `1` by far more than `1e-3`. -/
theorem bandRatioClaim_false : ¬ bandRatioClaim := by
  intro h
  have habs : |(1:ℚ)/10^15| = 1/10^15 := abs_of_pos (by norm_num)
  have hlen : ∀ fr : List ℚ, fr.length = 1024 →
      (List.replicate 513 |fr.headD 0| ).length = 513 := by
    intro fr _
    exact List.length_replicate _ _
  have hnn : ∀ fr : List ℚ, ∀ v ∈ List.replicate 513 |fr.headD 0|, 0 ≤ v := by
    intro fr v hv
    rw [List.eq_of_mem_replicate hv]
    exact abs_nonneg _
  have hhom : ∀ (c : ℚ) (fr : List ℚ), 0 ≤ c →
      List.replicate 513 |(fr.map (fun v => c * v)).headD 0|
        = (List.replicate 513 |fr.headD 0| ).map (fun v => c * v) := by
    intro c fr hc
    cases fr with
    | nil =>
        rw [List.map_nil, List.map_replicate]
        rw [show (([]:List ℚ)).headD 0 = 0 from rfl, abs_zero, mul_zero]
    | cons a l =>
        rw [List.map_cons, List.map_replicate, List.headD_cons, List.headD_cons,
          abs_mul, abs_of_nonneg hc]
  have hcl := h (fun fr => List.replicate 513 |fr.headD 0|) hlen hnn hhom
    [1/10^15] 16000 (by norm_num) ⟨1/10^15, List.mem_singleton.mpr rfl, by norm_num⟩
  have hform := ratio_sum_formula (fun fr => List.replicate 513 |fr.headD 0|) hlen
    [1/10^15] 16000 (by rw [List.length_singleton]; norm_num) (by norm_num)
  have hcap : capTenSeconds [(1:ℚ)/10^15] 16000 = [1/10^15] := by
    rw [capTenSeconds, if_neg (by rw [List.length_singleton]; norm_num)]
  have hframes : framesOf [(1:ℚ)/10^15] = [frameAt [1/10^15] 0] := by
    rw [framesOf, List.length_singleton]
    rw [show nFrames 1 = 1 from by decide,
      show List.range 1 = [0] from by decide, List.map_cons, List.map_nil]
  have hhead : (frameAt [(1:ℚ)/10^15] 0).headD 0 = 1/10^15 := by
    rw [frameAt]
    show ((([(1:ℚ)/10^15].drop (0 * 512)).take 1024) ++ _).headD 0 = 1/10^15
    rw [show (0:ℕ) * 512 = 0 from rfl, List.drop_zero,
      List.take_of_length_le (by rw [List.length_singleton]; norm_num),
      List.singleton_append]
    rfl
  have hS : totalMag ((framesOf (capTenSeconds [(1:ℚ)/10^15] 16000)).map
      (fun fr => List.replicate 513 |fr.headD 0| )) = 513 / 10 ^ 15 := by
    rw [hcap, hframes, List.map_cons, List.map_nil, totalMag, List.map_cons,
      List.map_nil, List.sum_cons, List.sum_nil, hhead, habs, List.sum_replicate]
    rw [nsmul_eq_mul]
    norm_num
  rw [hform, hS] at hcl
  have hval : (513:ℚ) / 10 ^ 15 / (513 / 10 ^ 15 + 1 / 10 ^ 12) = 513 / 1513 := by
    norm_num
  rw [hval] at hcl
  rw [show (513:ℚ)/1513 - 1 = -(1000/1513) from by norm_num, abs_neg,
    abs_of_pos (by norm_num : (0:ℚ) < 1000/1513)] at hcl
  norm_num at hcl

/-- Witness for `bandRatios_sum`: the admissible magnitude layer that
returns 513 copies of the head sample's magnitude, on the constant-1
1024-sample buffer at 16 kHz, where the total magnitude is `513 ≥ 1e-9`,
so the ratio sum is within `1e-3` of `1`. -/
theorem bandRatios_sum_witness :
    |(analyzeSpectrumForComment (fun fr => List.replicate 513 |fr.headD 0| )
        (List.replicate 1024 1) 16000).ratio_low
      + (analyzeSpectrumForComment (fun fr => List.replicate 513 |fr.headD 0| )
        (List.replicate 1024 1) 16000).ratio_mid
      + (analyzeSpectrumForComment (fun fr => List.replicate 513 |fr.headD 0| )
        (List.replicate 1024 1) 16000).ratio_high - 1| ≤ 1 / 10 ^ 3 := by
  have hlen : ∀ fr : List ℚ, fr.length = 1024 →
      (List.replicate 513 |fr.headD 0| ).length = 513 :=
    fun fr _ => List.length_replicate _ _
  have hnn : ∀ fr ∈ (framesOf (capTenSeconds (List.replicate 1024 (1:ℚ)) 16000)).map
      (fun fr => List.replicate 513 |fr.headD 0| ), ∀ v ∈ fr, 0 ≤ v := by
    intro fr hfr v hv
    obtain ⟨fr0, -, rfl⟩ := List.mem_map.mp hfr
    rw [List.eq_of_mem_replicate hv]
    exact abs_nonneg _
  have hmain := bandRatios_sum (fun fr => List.replicate 513 |fr.headD 0| )
    (List.replicate 1024 1) 16000 hlen hnn
    (by rw [List.length_replicate]; norm_num) (by norm_num)
  refine hmain.2.2 ?_
  have hcap : capTenSeconds (List.replicate 1024 (1:ℚ)) 16000 = List.replicate 1024 1 := by
    rw [capTenSeconds, if_neg (by rw [List.length_replicate]; norm_num)]
  have hframes : framesOf (List.replicate 1024 (1:ℚ)) = [frameAt (List.replicate 1024 1) 0] := by
    rw [framesOf, List.length_replicate]
    rw [show nFrames 1024 = 1 from by decide,
      show List.range 1 = [0] from by decide, List.map_cons, List.map_nil]
  have hhead : (frameAt (List.replicate 1024 (1:ℚ)) 0).headD 0 = 1 := by
    rw [frameAt]
    rw [show (0:ℕ) * 512 = 0 from rfl, List.drop_zero,
      List.take_of_length_le (by rw [List.length_replicate])]
    rw [show List.replicate 1024 (1:ℚ) = 1 :: List.replicate 1023 1 from rfl]
    rfl
  have hS : totalMag ((framesOf (capTenSeconds (List.replicate 1024 (1:ℚ)) 16000)).map
      (fun fr => List.replicate 513 |fr.headD 0| )) = 513 := by
    rw [hcap, hframes, List.map_cons, List.map_nil, totalMag, List.map_cons,
      List.map_nil, List.sum_cons, List.sum_nil, hhead, List.sum_replicate]
    norm_num
  rw [hS]
  norm_num

theorem safeEvalExpr_of_checkFail {t : PyExpr} (env : String → Option ℚ)
    (h : checkAllowed t = false) : safeEvalExpr (some t) env = false := by
  simp [safeEvalExpr, h]

theorem safeEvalExpr_of_evalError {t : PyExpr} (env : String → Option ℚ)
    (h : evalExpr env t = .error ()) : safeEvalExpr (some t) env = false := by
  by_cases hch : checkAllowed t
  · simp [safeEvalExpr, hch, h]
  · simp [safeEvalExpr, hch]

/-- C1.  The rule-expression evaluator is total (never raises to its
caller — it is a Lean function into `Bool`) and returns `False`
whenever: the expression fails to parse; the tree contains any node
outside the allow-list — in particular any call, attribute access, or
subscript; or evaluation fails (type error, name not bound).  The only
name bindings are the supplied environment (clause on `name`), and a
`true` result certifies that the tree validated and evaluated to a
truthy value. -/
theorem safeEvalExpr_safe :
    (∀ env, safeEvalExpr Option.none env = false) ∧
    (∀ (t : PyExpr) (env : String → Option ℚ),
      checkAllowed t = false → safeEvalExpr (some t) env = false) ∧
    (∀ (f : PyExpr) (args : List PyExpr) (env : String → Option ℚ),
      safeEvalExpr (some (.call f args)) env = false) ∧
    (∀ (e : PyExpr) (a : String) (env : String → Option ℚ),
      safeEvalExpr (some (.attribute e a)) env = false) ∧
    (∀ (e i : PyExpr) (env : String → Option ℚ),
      safeEvalExpr (some (.subscript e i)) env = false) ∧
    (∀ (t : PyExpr) (env : String → Option ℚ),
      evalExpr env t = .error () → safeEvalExpr (some t) env = false) ∧
    (∀ (s : String) (env : String → Option ℚ),
      env s = Option.none → safeEvalExpr (some (.name s)) env = false) ∧
    (∀ (t : PyExpr) (env : String → Option ℚ), safeEvalExpr (some t) env = true →
      checkAllowed t = true ∧ ∃ v, evalExpr env t = .ok v ∧ truthy v = true) := by
  refine ⟨fun env => rfl, fun t env h => safeEvalExpr_of_checkFail env h,
    ?_, ?_, ?_, fun t env h => safeEvalExpr_of_evalError env h, ?_, ?_⟩
  · intro f args env
    exact safeEvalExpr_of_checkFail env (by simp [checkAllowed])
  · intro e a env
    exact safeEvalExpr_of_checkFail env (by simp [checkAllowed])
  · intro e i env
    exact safeEvalExpr_of_checkFail env (by simp [checkAllowed])
  · intro s env h
    exact safeEvalExpr_of_evalError env (by simp [evalExpr, h])
  · intro t env h
    by_cases hch : checkAllowed t
    · refine ⟨hch, ?_⟩
      cases hev : evalExpr env t with
      | ok v =>
          refine ⟨v, rfl, ?_⟩
          simpa [safeEvalExpr, hch, hev] using h
      | error e =>
          cases e
          rw [safeEvalExpr_of_evalError env hev] at h
          cases h
    · rw [safeEvalExpr_of_checkFail env (Bool.not_eq_true _ ▸ hch)] at h
      cases h

/-- Witness for `safeEvalExpr_safe`: a concrete call expression and a
concrete unbound name both yield `False`; a disallowed `not` node yields
`False`; a failed parse yields `False`. -/
theorem safeEvalExpr_safe_witness :
    safeEvalExpr (some (.call (.name "f") [])) (fun _ => some 1) = false ∧
    safeEvalExpr (some (.name "missing")) (fun _ => Option.none) = false ∧
    safeEvalExpr (some (.unaryOp .notOp (.const (.num 1)))) (fun _ => some 1) = false ∧
    safeEvalExpr Option.none (fun _ => some 1) = false := by
  refine ⟨safeEvalExpr_safe.2.2.1 (.name "f") [] _,
    safeEvalExpr_safe.2.2.2.2.2.2.1 "missing" _ rfl,
    safeEvalExpr_safe.2.1 _ _ ?_,
    safeEvalExpr_safe.1 _⟩
  simp [checkAllowed, allowedUnary]

theorem length_filterMap_eq_countP {α β : Type} (f : α → Option β) (l : List α) :
    (l.filterMap f).length = l.countP (fun a => (f a).isSome) := by
  induction l with
  | nil => rfl
  | cons a l ih =>
      rw [List.filterMap_cons, List.countP_cons]
      cases hfa : f a with
      | none => simp [hfa, ih]
      | some b => simp [hfa, ih]

theorem safeEvalExpr_condRms (v : ℚ) :
    safeEvalExpr (some condRms) (envRms v) = decide (1/20 < v) := by
  have hck : checkAllowed condRms = true := by
    simp [condRms, checkAllowed, checkAllowedChain, allowedCmp]
  have hev : evalExpr (envRms v) condRms = .ok (.bool (decide (1/20 < v))) := by
    simp [condRms, evalExpr, envRms, evalCmpChain, evalCmpOp, cmpVals, toNumQ,
      Bind.bind, Except.bind]
  rw [safeEvalExpr]
  rw [if_pos hck, hev]
  by_cases h : (1:ℚ)/20 < v
  · simp [truthy, h]
  · simp [truthy, h]

/-- C8.  Scenario: with the one-section template whose sole rule is
`if: "rms > 0.05" / text: "loud enough"`, the environment `{rms: 0.1}`
produces exactly one section with exactly that one line (and the
corresponding Markdown string), while `{rms: 0.01}` produces no
sections and the empty string — not an error.  In general every emitted
section has at least one line, a section's line count is exactly the
number of its firing rules, and a firing rule contributes exactly one
line: its text, or the pick from its list-valued text. -/
theorem renderRuleBasedFeedback_spec :
    (∀ pick, renderParts pick (envRms (1/10)) tplLoudEnough = [("H", ["- loud enough"])] ∧
      renderRuleBasedFeedback pick (some tplLoudEnough) (envRms (1/10))
        = "\n---\n\n## H\n- loud enough") ∧
    (∀ pick, renderParts pick (envRms (1/100)) tplLoudEnough = [] ∧
      renderRuleBasedFeedback pick (some tplLoudEnough) (envRms (1/100)) = "") ∧
    (∀ pick env data p, p ∈ renderParts pick env data → p.2 ≠ []) ∧
    (∀ pick env sec, (sectionLines pick env sec).length
      = sec.rules.countP (fun r => (ruleLine pick env r).isSome)) ∧
    (∀ pick env (r : TplRule), r.cond ≠ CondSrc.empty → r.text.falsy = false →
      safeEvalExpr r.cond.toParsed env = true →
      ruleLine pick env r = some ("- " ++ renderText pick r.text)) := by
  have hfire : ∀ pick, ruleLine pick (envRms (1/10)) ⟨.parsed condRms, .txt "loud enough"⟩
      = some "- loud enough" := by
    intro pick
    have h1 := safeEvalExpr_condRms (1/10)
    rw [decide_eq_true (by norm_num : (1:ℚ)/20 < 1/10)] at h1
    have h1' : safeEvalExpr (some condRms) (envRms 10⁻¹) = true := by
      rw [show ((10:ℚ)⁻¹) = 1/10 from (one_div (10:ℚ)).symm]
      exact h1
    simp [ruleLine, RuleText.falsy, CondSrc.toParsed, renderText, h1, h1']
  have hnofire : ∀ pick, ruleLine pick (envRms (1/100)) ⟨.parsed condRms, .txt "loud enough"⟩
      = Option.none := by
    intro pick
    have h1 := safeEvalExpr_condRms (1/100)
    rw [decide_eq_false (by norm_num : ¬ (1:ℚ)/20 < 1/100)] at h1
    have h1' : safeEvalExpr (some condRms) (envRms 100⁻¹) = false := by
      rw [show ((100:ℚ)⁻¹) = 1/100 from (one_div (100:ℚ)).symm]
      exact h1
    simp [ruleLine, RuleText.falsy, CondSrc.toParsed, renderText, h1, h1']
  refine ⟨?_, ?_, ?_, ?_, ?_⟩
  · intro pick
    have hsec : sectionLines pick (envRms (1/10)) ⟨"H", [⟨.parsed condRms, .txt "loud enough"⟩]⟩
        = ["- loud enough"] := by
      rw [sectionLines, List.filterMap_cons, hfire pick]
      rfl
    have hparts : renderParts pick (envRms (1/10)) tplLoudEnough
        = [("H", ["- loud enough"])] := by
      rw [renderParts, tplLoudEnough, List.filterMap_cons]
      rw [if_neg (by rw [hsec]; exact List.cons_ne_nil _ _), hsec]
      rfl
    refine ⟨hparts, ?_⟩
    rw [renderRuleBasedFeedback, hparts]
    rfl
  · intro pick
    have hsec : sectionLines pick (envRms (1/100)) ⟨"H", [⟨.parsed condRms, .txt "loud enough"⟩]⟩
        = [] := by
      rw [sectionLines, List.filterMap_cons, hnofire pick]
      rfl
    have hparts : renderParts pick (envRms (1/100)) tplLoudEnough = [] := by
      rw [renderParts, tplLoudEnough, List.filterMap_cons, if_pos hsec]
      rfl
    refine ⟨hparts, ?_⟩
    rw [renderRuleBasedFeedback, hparts]
    rfl
  · intro pick env data p hp
    rw [renderParts] at hp
    obtain ⟨sec, -, hsec⟩ := List.mem_filterMap.mp hp
    by_cases hnil : sectionLines pick env sec = []
    · rw [if_pos hnil] at hsec
      cases hsec
    · rw [if_neg hnil] at hsec
      cases hsec
      exact hnil
  · intro pick env sec
    exact length_filterMap_eq_countP (ruleLine pick env) sec.rules
  · intro pick env r hc hf he
    cases hcond : r.cond with
    | empty => exact absurd hcond hc
    | parseFail =>
        rw [hcond] at he
        rw [show (CondSrc.parseFail).toParsed = Option.none from rfl] at he
        cases he
    | parsed e =>
        have he' : safeEvalExpr (some e) env = true := by
          rw [hcond] at he
          exact he
        rw [ruleLine, hcond]
        simp [hf, he', CondSrc.toParsed]

/-- Witness for `renderRuleBasedFeedback_spec`: its hypothesis-bearing
clauses applied at the firing scenario instance. -/
theorem renderRuleBasedFeedback_spec_witness :
    ("H", ["- loud enough"]).2 ≠ ([] : List String) ∧
    ruleLine (fun l => l.headD "") (envRms (1/10)) ⟨.parsed condRms, .txt "loud enough"⟩
      = some ("- " ++ renderText (fun l => l.headD "") (RuleText.txt "loud enough")) := by
  constructor
  · refine (renderRuleBasedFeedback_spec.2.2.1 (fun l => l.headD "") (envRms (1/10))
      tplLoudEnough ("H", ["- loud enough"]) ?_)
    rw [(renderRuleBasedFeedback_spec.1 (fun l => l.headD "")).1]
    exact List.mem_singleton.mpr rfl
  · refine renderRuleBasedFeedback_spec.2.2.2.2 (fun l => l.headD "") (envRms (1/10))
      ⟨.parsed condRms, .txt "loud enough"⟩ (by intro h; cases h) (by simp [RuleText.falsy]) ?_
    rw [show (CondSrc.parsed condRms).toParsed = some condRms from rfl,
      safeEvalExpr_condRms]
    rw [decide_eq_true (by norm_num : (1:ℚ)/20 < 1/10)]

/-- C7.  Classification of each of the five traits against its
configured ideal range (lo, hi) is boundary-inclusive: a value equal to
`lo` or `hi` is "good"; a value strictly below `lo` gives the trait's
low-side category; a value strictly above `hi` gives its high-side
category; clarity (明瞭さ) is one-sided — every value `≥ lo` (including
values above `hi = 1.0`) is "good". -/
theorem evaluateSpeechFeatures_boundaries :
    (idealRange "速さ" = some (120, 150) ∧ idealRange "抑揚" = some (1/2, 3/2) ∧
      idealRange "音量" = some (60, 75) ∧ idealRange "明瞭さ" = some (7/10, 1) ∧
      idealRange "間" = some (1/2, 2)) ∧
    (∀ f : SpeechFeatures,
      ((f.hayasa = 120 ∨ f.hayasa = 150) → (evaluateSpeechFeatures f).hayasa = "good") ∧
      (f.hayasa < 120 → (evaluateSpeechFeatures f).hayasa = "too_slow") ∧
      (150 < f.hayasa → (evaluateSpeechFeatures f).hayasa = "too_fast") ∧
      ((f.yokuyo = 1/2 ∨ f.yokuyo = 3/2) → (evaluateSpeechFeatures f).yokuyo = "good") ∧
      (f.yokuyo < 1/2 → (evaluateSpeechFeatures f).yokuyo = "too_flat") ∧
      (3/2 < f.yokuyo → (evaluateSpeechFeatures f).yokuyo = "too_varied") ∧
      ((f.onryo = 60 ∨ f.onryo = 75) → (evaluateSpeechFeatures f).onryo = "good") ∧
      (f.onryo < 60 → (evaluateSpeechFeatures f).onryo = "too_quiet") ∧
      (75 < f.onryo → (evaluateSpeechFeatures f).onryo = "too_loud") ∧
      ((f.meiryosa = 7/10 ∨ f.meiryosa = 1) → (evaluateSpeechFeatures f).meiryosa = "good") ∧
      (f.meiryosa < 7/10 → (evaluateSpeechFeatures f).meiryosa = "unclear") ∧
      (7/10 ≤ f.meiryosa → (evaluateSpeechFeatures f).meiryosa = "good") ∧
      ((f.ma = 1/2 ∨ f.ma = 2) → (evaluateSpeechFeatures f).ma = "good") ∧
      (f.ma < 1/2 → (evaluateSpeechFeatures f).ma = "too_few") ∧
      (2 < f.ma → (evaluateSpeechFeatures f).ma = "too_many")) := by
  refine ⟨⟨rfl, rfl, rfl, rfl, rfl⟩, fun f => ?_⟩
  refine ⟨?_, ?_, ?_, ?_, ?_, ?_, ?_, ?_, ?_, ?_, ?_, ?_, ?_, ?_, ?_⟩
  · rintro (h | h) <;> norm_num [evaluateSpeechFeatures, h]
  · intro h
    simp [evaluateSpeechFeatures, h]
  · intro h
    have h' : ¬ f.hayasa < 120 := by linarith
    simp [evaluateSpeechFeatures, h, h']
  · rintro (h | h) <;> norm_num [evaluateSpeechFeatures, h]
  · intro h
    dsimp only [evaluateSpeechFeatures]
    rw [if_pos h]
  · intro h
    dsimp only [evaluateSpeechFeatures]
    rw [if_neg (by linarith : ¬ f.yokuyo < 1/2), if_pos h]
  · rintro (h | h) <;> norm_num [evaluateSpeechFeatures, h]
  · intro h
    simp [evaluateSpeechFeatures, h]
  · intro h
    have h' : ¬ f.onryo < 60 := by linarith
    simp [evaluateSpeechFeatures, h, h']
  · rintro (h | h) <;> norm_num [evaluateSpeechFeatures, h]
  · intro h
    simp [evaluateSpeechFeatures, h]
  · intro h
    have h' : ¬ f.meiryosa < 7/10 := not_lt.mpr h
    simp [evaluateSpeechFeatures, h']
  · rintro (h | h) <;> norm_num [evaluateSpeechFeatures, h]
  · intro h
    dsimp only [evaluateSpeechFeatures]
    rw [if_pos h]
  · intro h
    dsimp only [evaluateSpeechFeatures]
    rw [if_neg (by linarith : ¬ f.ma < 1/2), if_pos h]

/-- Witness for `evaluateSpeechFeatures_boundaries`, at the feature
vector (120, 1.8, 50, 1.2, 1): boundary speed is "good", high
intonation is "too_varied", low volume is "too_quiet", clarity above its
upper bound is still "good" (one-sided), in-range pause is not
classified. -/
theorem evaluateSpeechFeatures_boundaries_witness :
    (evaluateSpeechFeatures ⟨120, 9/5, 50, 6/5, 1⟩).hayasa = "good" ∧
    (evaluateSpeechFeatures ⟨120, 9/5, 50, 6/5, 1⟩).yokuyo = "too_varied" ∧
    (evaluateSpeechFeatures ⟨120, 9/5, 50, 6/5, 1⟩).onryo = "too_quiet" ∧
    (evaluateSpeechFeatures ⟨120, 9/5, 50, 6/5, 1⟩).meiryosa = "good" := by
  have h := (evaluateSpeechFeatures_boundaries.2 ⟨120, 9/5, 50, 6/5, 1⟩)
  exact ⟨h.1 (Or.inl rfl), h.2.2.2.2.2.1 (by norm_num), h.2.2.2.2.2.2.2.1 (by norm_num),
    h.2.2.2.2.2.2.2.2.2.2.2.1 (by norm_num)⟩

theorem mapM_entry_spec :
    ∀ (ev : List (String × String)) (entries : List (String × String × String)),
      ev.mapM (fun mr => (voiceMetricsFeedback mr.1 mr.2).map
        (fun t => (mr.1, mr.2, mr.1 ++ ": " ++ t))) = some entries →
      (entries.filter (fun e => e.2.1 == "good")).length
          = ev.countP (fun mr => mr.2 == "good") ∧
      (entries.filter (fun e => ! (e.2.1 == "good"))).length
          = ev.countP (fun mr => ! (mr.2 == "good")) ∧
      entries.length = ev.length := by
  intro ev
  induction ev with
  | nil =>
      intro entries h
      rw [List.mapM_nil] at h
      cases h
      simp
  | cons mr ev ih =>
      intro entries h
      rw [List.mapM_cons] at h
      simp only [Option.bind_eq_bind, Option.bind_eq_some, Option.map_eq_some',
        Option.pure_def, Option.some.injEq] at h
      obtain ⟨b, ⟨t, ht, rfl⟩, bs, hbs, rfl⟩ := h
      obtain ⟨h1, h2, h3⟩ := ih bs hbs
      refine ⟨?_, ?_, ?_⟩
      · rw [List.countP_cons, List.filter_cons]
        by_cases hg : (mr.2 == "good") = true
        · simp [hg, h1]
        · rw [Bool.not_eq_true] at hg
          simp [hg, h1]
      · rw [List.countP_cons, List.filter_cons]
        by_cases hg : (mr.2 == "good") = true
        · simp [hg, h2]
        · rw [Bool.not_eq_true] at hg
          simp [hg, h2]
      · simp [h3]

theorem countP_add_countP_not {α : Type} (p : α → Bool) (l : List α) :
    l.countP p + l.countP (fun a => ! p a) = l.length := by
  induction l with
  | nil => rfl
  | cons a l ih =>
      rw [List.countP_cons, List.countP_cons, List.length_cons]
      by_cases hp : p a = true
      · rw [hp]
        rw [show (if true = true then 1 else 0) = 1 from rfl,
          show (if (!true) = true then 1 else 0) = 0 from rfl]
        omega
      · rw [Bool.not_eq_true] at hp
        rw [hp]
        rw [show (if false = true then 1 else 0) = 0 from rfl,
          show (if (!false) = true then 1 else 0) = 1 from rfl]
        omega

/-- On a successful run, `_generate_feedback` produces exactly the
good/bad partition, the tiered overall text, and the advice block. -/
theorem generateFeedback_eq_some (evaluation : List (String × String))
    (entries : List (String × String × String))
    (hmap : evaluation.mapM (fun mr => (voiceMetricsFeedback mr.1 mr.2).map
      (fun t => (mr.1, mr.2, mr.1 ++ ": " ++ t))) = some entries)
    (hlen : ¬ evaluation.length = 0) :
    generateFeedback evaluation = some
      ⟨(entries.filter (fun e => e.2.1 == "good")).map (fun e => e.2.2),
        (entries.filter (fun e => ! (e.2.1 == "good"))).map (fun e => e.2.2),
        (if 4/5 ≤ (((entries.filter (fun e => e.2.1 == "good")).map
              (fun e => e.2.2)).length : ℚ) / (evaluation.length : ℚ) then overallTier1
          else if 3/5 ≤ (((entries.filter (fun e => e.2.1 == "good")).map
              (fun e => e.2.2)).length : ℚ) / (evaluation.length : ℚ) then overallTier2
          else if 2/5 ≤ (((entries.filter (fun e => e.2.1 == "good")).map
              (fun e => e.2.2)).length : ℚ) / (evaluation.length : ℚ) then overallTier3
          else overallTier4),
        adviceFor evaluation⟩ := by
  rw [generateFeedback, hmap]
  simp only [if_neg hlen]

/-- C9.  On every successful run, the aggregate score is the number of
"good" traits over the number of evaluated traits, and the overall
assessment is the four-tier selection at thresholds 0.8 / 0.6 / 0.4:
`score ≥ 0.8` the best tier, `0.6 ≤ score < 0.8` the second,
`0.4 ≤ score < 0.6` the third, `score < 0.4` the worst. -/
theorem generateFeedback_tiers (evaluation : List (String × String)) (fb : Feedback)
    (h : generateFeedback evaluation = some fb) :
    fb.goodPoints.length = evaluation.countP (fun mr => mr.2 == "good") ∧
    ((4/5 : ℚ) ≤ goodScore evaluation → fb.overall = overallTier1) ∧
    ((3/5 : ℚ) ≤ goodScore evaluation ∧ goodScore evaluation < 4/5 →
      fb.overall = overallTier2) ∧
    ((2/5 : ℚ) ≤ goodScore evaluation ∧ goodScore evaluation < 3/5 →
      fb.overall = overallTier3) ∧
    (goodScore evaluation < (2/5 : ℚ) → fb.overall = overallTier4) := by
  cases hmap : evaluation.mapM (fun mr => (voiceMetricsFeedback mr.1 mr.2).map
      (fun t => (mr.1, mr.2, mr.1 ++ ": " ++ t))) with
  | none =>
      rw [generateFeedback, hmap] at h
      exact Option.noConfusion h
  | some entries =>
      by_cases hlen : evaluation.length = 0
      · rw [generateFeedback, hmap] at h
        dsimp only at h
        rw [if_pos hlen] at h
        exact Option.noConfusion h
      · have hchar := generateFeedback_eq_some evaluation entries hmap hlen
        obtain rfl := Option.some.inj (hchar.symm.trans h)
        obtain ⟨h1, -, -⟩ := mapM_entry_spec evaluation entries hmap
        have hglen : ((entries.filter (fun e => e.2.1 == "good")).map
            (fun e => e.2.2)).length = evaluation.countP (fun mr => mr.2 == "good") := by
          rw [List.length_map, h1]
        have hscore : (((entries.filter (fun e => e.2.1 == "good")).map
            (fun e => e.2.2)).length : ℚ) / (evaluation.length : ℚ)
            = goodScore evaluation := by
          rw [hglen, goodScore]
        refine ⟨hglen, ?_, ?_, ?_, ?_⟩
        · intro hs
          show (if _ then overallTier1 else _) = overallTier1
          rw [hscore, if_pos hs]
        · rintro ⟨hs1, hs2⟩
          show (if _ then overallTier1 else _) = overallTier2
          rw [hscore, if_neg (not_le.mpr hs2), if_pos hs1]
        · rintro ⟨hs1, hs2⟩
          show (if _ then overallTier1 else _) = overallTier3
          rw [hscore, if_neg (not_le.mpr (lt_of_lt_of_le hs2 (by norm_num))),
            if_neg (not_le.mpr hs2), if_pos hs1]
        · intro hs
          show (if _ then overallTier1 else _) = overallTier4
          rw [hscore, if_neg (not_le.mpr (lt_of_lt_of_le hs (by norm_num))),
            if_neg (not_le.mpr (lt_of_lt_of_le hs (by norm_num))),
            if_neg (not_le.mpr hs)]

/-- Witness for `generateFeedback_tiers`: the single-trait evaluation
`{速さ: good}` succeeds with score `1/1 = 1 ≥ 0.8` and the best tier. -/
theorem generateFeedback_tiers_witness :
    ∃ fb, generateFeedback [("速さ", "good")] = some fb ∧ fb.overall = overallTier1 := by
  have hmap : [("速さ", "good")].mapM (fun mr => (voiceMetricsFeedback mr.1 mr.2).map
      (fun t => (mr.1, mr.2, mr.1 ++ ": " ++ t)))
      = some [("速さ", "good", "速さ" ++ ": " ++ "話すスピードは適切です。聞き手が内容を理解しやすい速さです。")] := by
    rw [List.mapM_cons, List.mapM_nil]
    rfl
  have h := generateFeedback_eq_some [("速さ", "good")] _ hmap (by norm_num)
  refine ⟨_, h, (generateFeedback_tiers _ _ h).2.1 ?_⟩
  rw [goodScore]
  rw [show ([("速さ", "good")].countP (fun mr => mr.2 == "good")) = 1 from by decide]
  norm_num

/-- C10 counterexample: on the empty evaluation mapping
`_generate_feedback` computes `score = 0/0` and raises
`ZeroDivisionError` (modelled as `none`): no strengths/improvements
lists are produced at all, contradicting the claim's "for every
evaluation mapping". -/
theorem generateFeedback_empty_cex : generateFeedback [] = Option.none := by
  rw [generateFeedback, List.mapM_nil]
  rfl

/-- C10 (amended).  For every nonempty evaluation mapping whose
trait/category pairs are present in the feedback table,
`_generate_feedback` succeeds and places each evaluated trait in exactly
one of the two lists: the strengths list collects exactly the "good"
traits, the improvements list exactly the others, their lengths sum to
the number of evaluated traits, and the aggregate score is
`len(strengths)/len(evaluation)` (`goodScore`). -/
theorem generateFeedback_partition (evaluation : List (String × String))
    (hne : evaluation ≠ [])
    (hvalid : ∀ mr ∈ evaluation, (voiceMetricsFeedback mr.1 mr.2).isSome = true) :
    ∃ fb, generateFeedback evaluation = some fb ∧
      fb.goodPoints.length = evaluation.countP (fun mr => mr.2 == "good") ∧
      fb.improvePoints.length = evaluation.countP (fun mr => ! (mr.2 == "good")) ∧
      fb.goodPoints.length + fb.improvePoints.length = evaluation.length ∧
      (fb.goodPoints.length : ℚ) / (evaluation.length : ℚ) = goodScore evaluation := by
  have hmapM : ∃ entries, evaluation.mapM (fun mr => (voiceMetricsFeedback mr.1 mr.2).map
      (fun t => (mr.1, mr.2, mr.1 ++ ": " ++ t))) = some entries := by
    clear hne
    induction evaluation with
    | nil => exact ⟨[], List.mapM_nil _⟩
    | cons mr ev ih =>
        obtain ⟨t, ht⟩ := Option.isSome_iff_exists.mp
          (hvalid mr (List.mem_cons_self mr ev))
        obtain ⟨entries, hent⟩ := ih (fun x hx => hvalid x (List.mem_cons_of_mem mr hx))
        refine ⟨(mr.1, mr.2, mr.1 ++ ": " ++ t) :: entries, ?_⟩
        simp only [List.mapM_cons, ht, Option.map_some', Option.bind_eq_bind,
          Option.some_bind, hent, Option.pure_def]
  obtain ⟨entries, hmap⟩ := hmapM
  have hlen : ¬ evaluation.length = 0 := by
    simpa [List.length_eq_zero] using hne
  have h := generateFeedback_eq_some evaluation entries hmap hlen
  obtain ⟨h1, h2, -⟩ := mapM_entry_spec evaluation entries hmap
  refine ⟨_, h, ?_, ?_, ?_, ?_⟩
  · rw [List.length_map, h1]
  · rw [List.length_map, h2]
  · rw [List.length_map, List.length_map, h1, h2]
    exact countP_add_countP_not _ evaluation
  · rw [List.length_map, h1, goodScore]

/-- Witness for `generateFeedback_partition`: the five-trait evaluation
with two "good" categories partitions into lists of lengths 2 and 3. -/
theorem generateFeedback_partition_witness :
    ∃ fb, generateFeedback [("速さ", "good"), ("抑揚", "too_flat"), ("音量", "good"),
        ("明瞭さ", "unclear"), ("間", "too_many")] = some fb ∧
      fb.goodPoints.length = 2 ∧ fb.improvePoints.length = 3 ∧
      fb.goodPoints.length + fb.improvePoints.length = 5 := by
  obtain ⟨fb, hfb, hg, hb, hsum, -⟩ := generateFeedback_partition
    [("速さ", "good"), ("抑揚", "too_flat"), ("音量", "good"),
      ("明瞭さ", "unclear"), ("間", "too_many")]
    (by intro h; cases h)
    (by intro mr hmr; fin_cases hmr <;> rfl)
  refine ⟨fb, hfb, ?_, ?_, ?_⟩
  · rw [hg]; decide
  · rw [hb]; decide
  · rw [hsum]; rfl

end Toyoko
